import Mathlib

/-!
# SRTF process scheduling: a shallow embedding of `srtf.c`

The C program keeps three singly linked queues of `process_t` nodes (ready, stopped,
defunct) behind a `header_t`.  The embedding keeps the pointer structure of the program:

* a process pointer is `Option Nat` (`none` is `NULL`, `some a` is the node at address `a`);
* the process store is a total map `Nat → process_t`, each node carrying its own `next`
  pointer, so that aliasing between chains and stale `next` pointers are visible;
* the three `queue_t*` fields of the header are `Option queue_t` (`none` is `NULL`);
* C `int` values are mathematical integers (signed overflow is undefined in C and is not
  part of the model); `&`, `^` and `>>` are the two's complement operations on `Int`;
* `while` loops walk a chain with a fuel argument and return `none` when the fuel runs
  out; every theorem about a result shows that a fuel of at least the chain length is
  enough;
* `clock_get_time()` belongs to `clock.h`, which is not part of the sources; its value is
  the parameter `now`;
* `free` does not change the store: a reaped node keeps its contents and stops being
  reachable from the defunct head; `srtf_reap_freed` names the node that `srtf_reap` frees;
* the allocations of `srtf_init` and `srtf_generate` are arguments that tell whether
  `calloc` and `malloc` succeed and which address `calloc` returns; in a sequence of calls
  (`Machine`, `Call`, `run`) `calloc` may return any address that is not live, that is,
  one never handed out or one that `srtf_reap` has freed since.
-/

namespace SRTF

/-! ## constants.h -/

def STATE_COUNT : Nat := 5
def STATE_CREATED : Int := 0x01
def STATE_READY : Int := 0x02
def STATE_STOPPED : Int := 0x04
def STATE_DEFUNCT : Int := 0x08
def STATE_TERMINATED : Int := 0x10

/-- The macro `((1 << STATE_COUNT) - 1)`. -/
def STATE_MASK : Int := ((1 <<< STATE_COUNT : Nat) : Int) - 1

def PF_SUPERPRIV : Int := 0x20
def TIME_STARVATION : Int := 5
def SUCCESS : Int := 0
def FAILURE : Int := -1

/-! ## structs.h -/

/-- The struct `process_t`; `next` is the chain pointer. -/
structure process_t where
  command : Option String
  pid : Int
  flags : Int
  time_remaining : Int
  time_last_run : Int
  next : Option Nat
  deriving DecidableEq, Repr

/-- The struct `queue_t`. -/
structure queue_t where
  head : Option Nat
  count : Int
  deriving DecidableEq, Repr

/-- The struct `header_t`; each field is a pointer to a queue and may be `NULL`. -/
structure header_t where
  ready_queue : Option queue_t
  stopped_queue : Option queue_t
  defunct_queue : Option queue_t
  deriving DecidableEq, Repr

/-- The process store: the node found at each address. -/
abbrev Memory := Nat → process_t

/-- The program state: the process store and the (possibly `NULL`) header. -/
structure State where
  mem : Memory
  header : Option header_t

/-- The assignment `a->next = v`. -/
def setNext (mem : Memory) (a : Nat) (v : Option Nat) : Memory :=
  fun b => if b = a then { mem a with next := v } else mem b

/-- The assignment `a->flags = v`. -/
def setFlags (mem : Memory) (a : Nat) (v : Int) : Memory :=
  fun b => if b = a then { mem a with flags := v } else mem b

/-! ## srtf.c -/

/-- The `while (current != NULL)` loop shared by `srtf_enqueue`, `srtf_reap`, `srtf_stop`
and `srtf_continue`: it leaves the loop at the first node on which `test` holds (the
`break`), otherwise moves `previous` and `current` one node forward.  The result is the
final `(previous, current)`. -/
def scan (mem : Memory) (test : process_t → Bool) :
    Nat → Option Nat → Option Nat → Option (Option Nat × Option Nat)
  | 0, _, _ => none
  | _ + 1, previous, none => some (previous, none)
  | fuel + 1, previous, some c =>
    if test (mem c) then some (previous, some c)
    else scan mem test fuel (some c) (mem c).next

/-- The function `srtf_enqueue`: the queue is returned with its new `head` and `count`. -/
def srtf_enqueue (fuel : Nat) (mem : Memory) (queue : queue_t) (process : Nat) :
    Option (Memory × queue_t) :=
  match queue.head with
  | none => some (mem, { head := some process, count := queue.count + 1 })
  | some h =>
    match scan mem (fun c => decide (c.pid ≥ (mem process).pid)) fuel none (some h) with
    | none => none
    | some (none, current) =>
      some (setNext mem process current, { head := some process, count := queue.count + 1 })
    | some (some previous, current) =>
      some (setNext (setNext mem previous (some process)) process current,
        { head := queue.head, count := queue.count + 1 })

/-- The function `srtf_add`, returning the `int` result and the new state. -/
def srtf_add (fuel : Nat) (s : State) (process : Option Nat) : Option (Int × State) :=
  match s.header, process with
  | none, _ => some (FAILURE, s)
  | some _, none => some (FAILURE, s)
  | some header, some p =>
    match header.ready_queue, header.stopped_queue, header.defunct_queue with
    | some ready, some _, some defunct =>
      if (s.mem p).time_remaining < 0 then some (FAILURE, s)
      else
        let state := Int.land (s.mem p).flags STATE_MASK
        if state = STATE_CREATED then
          let mem1 := setFlags s.mem p (Int.xor (s.mem p).flags (STATE_CREATED + STATE_READY))
          match srtf_enqueue fuel mem1 ready p with
          | none => none
          | some (mem2, q) =>
            some (SUCCESS, { mem := mem2, header := some { header with ready_queue := some q } })
        else if state = STATE_READY then
          if (s.mem p).time_remaining > 0 then
            match srtf_enqueue fuel s.mem ready p with
            | none => none
            | some (mem2, q) =>
              some (SUCCESS, { mem := mem2, header := some { header with ready_queue := some q } })
          else
            let mem1 := setFlags s.mem p (Int.xor (s.mem p).flags (STATE_READY + STATE_DEFUNCT))
            match srtf_enqueue fuel mem1 defunct p with
            | none => none
            | some (mem2, q) =>
              some (SUCCESS,
                { mem := mem2, header := some { header with defunct_queue := some q } })
        else if state = STATE_DEFUNCT then
          match srtf_enqueue fuel s.mem defunct p with
          | none => none
          | some (mem2, q) =>
            some (SUCCESS, { mem := mem2, header := some { header with defunct_queue := some q } })
        else some (FAILURE, s)
    | _, _, _ => some (FAILURE, s)

/-- The function `srtf_reap`, returning `exitCode` and the new state. -/
def srtf_reap (fuel : Nat) (s : State) (pid : Int) : Option (Int × State) :=
  match s.header with
  | none => some (-1, s)
  | some header =>
    match header.defunct_queue with
    | none => some (-1, s)
    | some defunct =>
      match defunct.head with
      | none => some (-1, s)
      | some h =>
        if (s.mem h).pid = pid then
          some (0, { s with header := some { header with
            defunct_queue := some { head := (s.mem h).next, count := defunct.count - 1 } } })
        else
          match scan s.mem (fun c => decide (c.pid = pid)) fuel none (some h) with
          | none => none
          | some (_, none) => some (-1, s)
          | some (none, some c) =>
            some ((s.mem c).flags >>> STATE_COUNT, { s with header := some { header with
              defunct_queue := some { head := (s.mem c).next, count := defunct.count - 1 } } })
          | some (some previous, some c) =>
            some ((s.mem c).flags >>> STATE_COUNT,
              { mem := setNext s.mem previous (s.mem c).next,
                header := some { header with
                  defunct_queue := some { head := defunct.head, count := defunct.count - 1 } } })

/-- The node that `srtf_reap` hands to `free` (`free(current)`, in the head branch and after
the scan), `none` when the call fails and frees nothing, or does not return. -/
def srtf_reap_freed (fuel : Nat) (s : State) (pid : Int) : Option Nat :=
  match s.header with
  | none => none
  | some header =>
    match header.defunct_queue with
    | none => none
    | some defunct =>
      match defunct.head with
      | none => none
      | some h =>
        if (s.mem h).pid = pid then some h
        else
          match scan s.mem (fun c => decide (c.pid = pid)) fuel none (some h) with
          | none => none
          | some (_, none) => none
          | some (_, some c) => some c

/-- The `while (current->next != NULL)` loop of `srtf_schedule`; the result is the final
`(previous, process)`. -/
def schedule_loop (mem : Memory) (now : Int) :
    Nat → Nat → Option Nat → Nat → Option (Option Nat × Nat)
  | 0, _, _, _ => none
  | fuel + 1, current, previous, process =>
    match (mem current).next with
    | none => some (previous, process)
    | some n =>
      if now - (mem n).time_last_run ≥ TIME_STARVATION then some (some current, n)
      else if (mem n).time_remaining < (mem process).time_remaining then
        schedule_loop mem now fuel n (some current) n
      else schedule_loop mem now fuel n previous process

/-- The function `srtf_schedule` at clock value `now`, returning the selected process
pointer and the new state. -/
def srtf_schedule (fuel : Nat) (now : Int) (s : State) : Option (Option Nat × State) :=
  match s.header with
  | none => some (none, s)
  | some header =>
    match header.ready_queue with
    | none => some (none, s)
    | some ready =>
      match ready.head with
      | none => some (none, s)
      | some h =>
        let sel :=
          if now - (s.mem h).time_last_run < TIME_STARVATION then
            schedule_loop s.mem now fuel h none h
          else some (none, h)
        match sel with
        | none => none
        | some (none, process) =>
          some (some process,
            { mem := setNext s.mem process none,
              header := some { header with
                ready_queue := some { head := (s.mem process).next, count := ready.count - 1 } } })
        | some (some previous, process) =>
          some (some process,
            { mem := setNext (setNext s.mem previous (s.mem process).next) process none,
              header := some { header with
                ready_queue := some { head := ready.head, count := ready.count - 1 } } })

/-- The function `srtf_stop`. -/
def srtf_stop (fuel : Nat) (s : State) (pid : Int) : Option (Int × State) :=
  match s.header with
  | none => some (FAILURE, s)
  | some header =>
    match header.ready_queue with
    | none => some (FAILURE, s)
    | some ready =>
      match ready.head with
      | none => some (FAILURE, s)
      | some h =>
        match scan s.mem (fun c => decide (c.pid = pid)) fuel none (some h) with
        | none => none
        | some (_, none) => some (FAILURE, s)
        | some (previous, some c) =>
          let mem1 :=
            match previous with
            | none => s.mem
            | some prev => setNext s.mem prev (s.mem c).next
          let ready1 : queue_t :=
            match previous with
            | none => { head := (s.mem c).next, count := ready.count - 1 }
            | some _ => { head := ready.head, count := ready.count - 1 }
          let mem2 := setFlags mem1 c (Int.xor (mem1 c).flags (STATE_READY + STATE_STOPPED))
          match header.stopped_queue with
          | none => none
          | some stopped =>
            match srtf_enqueue fuel mem2 stopped c with
            | none => none
            | some (mem3, q) =>
              some (SUCCESS, { mem := mem3, header := some { header with
                ready_queue := some ready1, stopped_queue := some q } })

/-- The function `srtf_continue`. -/
def srtf_continue (fuel : Nat) (s : State) (pid : Int) : Option (Int × State) :=
  match s.header with
  | none => some (FAILURE, s)
  | some header =>
    match header.stopped_queue with
    | none => some (FAILURE, s)
    | some stopped =>
      match stopped.head with
      | none => some (FAILURE, s)
      | some h =>
        match scan s.mem (fun c => decide (c.pid = pid)) fuel none (some h) with
        | none => none
        | some (_, none) => some (FAILURE, s)
        | some (previous, some c) =>
          let mem1 :=
            match previous with
            | none => s.mem
            | some prev => setNext s.mem prev (s.mem c).next
          let stopped1 : queue_t :=
            match previous with
            | none => { head := (s.mem c).next, count := stopped.count - 1 }
            | some _ => { head := stopped.head, count := stopped.count - 1 }
          let mem2 := setFlags mem1 c (Int.xor (mem1 c).flags (STATE_STOPPED + STATE_READY))
          match header.ready_queue with
          | none => none
          | some ready =>
            match srtf_enqueue fuel mem2 ready c with
            | none => none
            | some (mem3, q) =>
              some (SUCCESS, { mem := mem3, header := some { header with
                stopped_queue := some stopped1, ready_queue := some q } })

/-- The function `srtf_strdup`: a copy of the text, `NULL` for a `NULL` source or when
`malloc` fails (`malloc_ok = false`). -/
def srtf_strdup (malloc_ok : Bool) (src : Option String) : Option String :=
  match src with
  | none => none
  | some text => if malloc_ok then some text else none

/-- The function `srtf_init`; the four arguments tell which of the four `calloc` calls
succeed.  A queue from `calloc` has a `NULL` head and count 0. -/
def srtf_init (header_ok ready_ok stopped_ok defunct_ok : Bool) : Option header_t :=
  if header_ok then
    if ready_ok && stopped_ok && defunct_ok then
      some { ready_queue := some { head := none, count := 0 },
             stopped_queue := some { head := none, count := 0 },
             defunct_queue := some { head := none, count := 0 } }
    else none
  else none

/-- A `process_t` as `calloc` hands it out: all fields zero. -/
def zeroed : process_t :=
  { command := none, pid := 0, flags := 0, time_remaining := 0, time_last_run := 0,
    next := none }

/-- The function `srtf_generate` at clock value `now`.  `calloc_result` is what `calloc`
returns for the new process (`none` when it fails), `malloc_ok` tells whether the `malloc`
of `srtf_strdup` succeeds.  The result is the returned pointer and the store. -/
def srtf_generate (mem : Memory) (calloc_result : Option Nat) (malloc_ok : Bool) (now : Int)
    (command : Option String) (pid time_remaining is_sudo : Int) : Option Nat × Memory :=
  if command = none ∨ time_remaining ≤ 0 then (none, mem)
  else
    match calloc_result with
    | none => (none, mem)
    | some a =>
      let mem1 : Memory := fun b => if b = a then zeroed else mem b
      match srtf_strdup malloc_ok command with
      | none => (none, mem1)
      | some text =>
        let flags := Int.lor 0 STATE_CREATED
        (some a, fun b =>
          if b = a then
            { command := some text, pid := pid,
              flags := if is_sudo ≠ 0 then Int.lor flags PF_SUPERPRIV else flags,
              time_remaining := time_remaining, time_last_run := now, next := none }
          else mem1 b)

/-- The function `srtf_count`. -/
def srtf_count (queue : Option queue_t) : Int :=
  match queue with
  | some q => q.count
  | none => FAILURE

/-! ## Call sequences -/

/-- The engine together with the live addresses: those `calloc` has handed out and `free`
has not taken back. -/
structure Machine where
  state : State
  used : List Nat

/-- A call made by the driver.  `generate a ..` is `srtf_generate` with `calloc` returning
the address `a`; `add p` is `srtf_add` of the process at `p`; `driver p ..` are the
driver's own writes to a process (`time_remaining`, `time_last_run`, `flags`). -/
inductive Call where
  | generate (a : Nat) (command : Option String) (pid time_remaining is_sudo now : Int)
  | add (p : Nat)
  | schedule (now : Int)
  | driver (p : Nat) (time_remaining time_last_run flags : Int)
  | stop (pid : Int)
  | continue (pid : Int)
  | reap (pid : Int)

/-- The machine after `srtf_init` succeeded, on a store `mem` of which nothing is known. -/
def boot (mem : Memory) : Machine :=
  { state := { mem := mem, header := srtf_init true true true true }, used := [] }

/-- One call.  The result is `none` when the call does not return with the given fuel,
when `generate` is given a live address (`calloc` never returns one), or when `add` or
`driver` is given an address that is not live.  An address is live from the moment
`srtf_generate` returns it until `srtf_reap` frees it; after that `calloc` may return it
again. -/
def step (fuel : Nat) (m : Machine) : Call → Option Machine
  | Call.generate a command pid time_remaining is_sudo now =>
    if a ∈ m.used then none
    else
      match srtf_generate m.state.mem (some a) true now command pid time_remaining is_sudo with
      | (none, mem2) => some { state := { mem := mem2, header := m.state.header },
                               used := m.used }
      | (some p, mem2) => some { state := { mem := mem2, header := m.state.header },
                                 used := p :: m.used }
  | Call.add p =>
    if p ∈ m.used then
      (srtf_add fuel m.state (some p)).map fun r => { state := r.2, used := m.used }
    else none
  | Call.schedule now =>
    (srtf_schedule fuel now m.state).map fun r => { state := r.2, used := m.used }
  | Call.driver p time_remaining time_last_run flags =>
    if p ∈ m.used then
      some { state := { mem := fun b =>
                          if b = p then
                            { m.state.mem p with time_remaining := time_remaining,
                                                 time_last_run := time_last_run,
                                                 flags := flags }
                          else m.state.mem b,
                        header := m.state.header },
             used := m.used }
    else none
  | Call.stop pid =>
    (srtf_stop fuel m.state pid).map fun r => { state := r.2, used := m.used }
  | Call.continue pid =>
    (srtf_continue fuel m.state pid).map fun r => { state := r.2, used := m.used }
  | Call.reap pid =>
    (srtf_reap fuel m.state pid).map fun r =>
      { state := r.2,
        used := match srtf_reap_freed fuel m.state pid with
                | some c => m.used.erase c
                | none => m.used }

/-- A sequence of calls, one after the other. -/
def run (fuel : Nat) : Machine → List Call → Option Machine
  | m, [] => some m
  | m, c :: cs =>
    match step fuel m c with
    | none => none
    | some m2 => run fuel m2 cs

/-- The nodes of the chain `l` carry non-decreasing pids. -/
def sortedByPid (mem : Memory) (l : List Nat) : Prop :=
  List.Pairwise (fun a b => (mem a).pid ≤ (mem b).pid) l

instance decSortedByPid (mem : Memory) (l : List Nat) : Decidable (sortedByPid mem l) := by
  unfold sortedByPid; infer_instance

/-! ## Observations on a state -/

/-- `lseg mem p l q`: following `next` from the pointer `p` visits exactly the nodes `l`,
in this order, and arrives at the pointer `q`. -/
def lseg (mem : Memory) : Option Nat → List Nat → Option Nat → Prop
  | p, [], q => p = q
  | p, a :: l, q => p = some a ∧ lseg mem (mem a).next l q

/-- `chain mem p l`: the chain that starts at `p` consists of the nodes `l` and ends with
a `NULL` chain pointer. -/
def chain (mem : Memory) (p : Option Nat) (l : List Nat) : Prop := lseg mem p l none

instance decLseg (mem : Memory) : ∀ (p : Option Nat) (l : List Nat) (q : Option Nat),
    Decidable (lseg mem p l q)
  | p, [], q => inferInstanceAs (Decidable (p = q))
  | p, a :: l, q =>
    match decEq p (some a), decLseg mem (mem a).next l q with
    | isTrue h1, isTrue h2 => isTrue ⟨h1, h2⟩
    | isFalse h1, _ => isFalse fun h => h1 h.1
    | _, isFalse h2 => isFalse fun h => h2 h.2

instance decChain (mem : Memory) (p : Option Nat) (l : List Nat) : Decidable (chain mem p l) :=
  decLseg mem p l none

/-- The nodes met when following `next` from `p`, at most `fuel` of them. -/
def walk (mem : Memory) : Nat → Option Nat → List Nat
  | 0, _ => []
  | _ + 1, none => []
  | fuel + 1, some a => a :: walk mem fuel (mem a).next

/-- The ready queue of a state (`header->ready_queue`), `none` when a pointer is `NULL`. -/
def readyQ (s : State) : Option queue_t := s.header.bind fun h => h.ready_queue

/-- The stopped queue of a state. -/
def stoppedQ (s : State) : Option queue_t := s.header.bind fun h => h.stopped_queue

/-- The defunct queue of a state. -/
def defunctQ (s : State) : Option queue_t := s.header.bind fun h => h.defunct_queue

/-- The state field of a flags word, `flags & STATE_MASK`. -/
def stateOf (flags : Int) : Int := Int.land flags STATE_MASK

/-- Two nodes agree on everything but the chain pointer. -/
def sameData (x y : process_t) : Prop :=
  x.command = y.command ∧ x.pid = y.pid ∧ x.flags = y.flags ∧
    x.time_remaining = y.time_remaining ∧ x.time_last_run = y.time_last_run

/-- A well-formed state: the header and its three queues are present, the queues hold the
chains `lr`, `ls` and `ld`, and no node lies on two chains. -/
def WellFormed (s : State) (qr qs qd : queue_t) (lr ls ld : List Nat) : Prop :=
  s.header = some { ready_queue := some qr, stopped_queue := some qs, defunct_queue := some qd } ∧
  chain s.mem qr.head lr ∧ chain s.mem qs.head ls ∧ chain s.mem qd.head ld ∧
  (∀ a ∈ lr, a ∉ ls) ∧ (∀ a ∈ lr, a ∉ ld) ∧ (∀ a ∈ ls, a ∉ ld)

instance decWellFormed (s : State) (qr qs qd : queue_t) (lr ls ld : List Nat) :
    Decidable (WellFormed s qr qs qd lr ls ld) := by
  unfold WellFormed; infer_instance

/-- The place where `srtf_enqueue` puts a node of identifier `pid`: before the first node
of the chain whose `pid` is not smaller. -/
def insertByPid (mem : Memory) (pid : Int) (x : Nat) : List Nat → List Nat
  | [] => [x]
  | a :: l => if (mem a).pid ≥ pid then x :: a :: l else a :: insertByPid mem pid x l

/-- The selection made by the loop of `srtf_schedule` over the nodes `R` that follow
`current`, as a function of the loop variables. -/
def pick (mem : Memory) (now : Int) : List Nat → Nat → Option Nat → Nat → Option Nat × Nat
  | [], _, previous, process => (previous, process)
  | n :: R, current, previous, process =>
    if now - (mem n).time_last_run ≥ TIME_STARVATION then (some current, n)
    else if (mem n).time_remaining < (mem process).time_remaining then
      pick mem now R n (some current) n
    else pick mem now R n previous process

/-- Node `p` has the least `time_remaining` of the chain `l` and is the earliest such
node: every node before it has strictly more remaining time. -/
def firstMin (mem : Memory) (l : List Nat) (p : Nat) : Prop :=
  ∃ pre post, l = pre ++ p :: post ∧
    (∀ a ∈ pre, (mem p).time_remaining < (mem a).time_remaining) ∧
    (∀ a ∈ post, (mem p).time_remaining ≤ (mem a).time_remaining)

/-- Node `p` lies on the chain `l` and `prev` points to the node just before it (`NULL`
when `p` is the first node). -/
def predOf (l : List Nat) (prev : Option Nat) (p : Nat) : Prop :=
  ∃ pre post, l = pre ++ p :: post ∧ prev = pre.getLast?

/-- The `(previous, process)` pair computed by `srtf_schedule` on a ready chain `h :: t`. -/
def selection (mem : Memory) (now : Int) (h : Nat) (t : List Nat) : Option Nat × Nat :=
  if now - (mem h).time_last_run < TIME_STARVATION then pick mem now t h none h else (none, h)

/-- The value of `previous` after the loop `scan` has walked over the nodes `pre`. -/
def lastOr (prev : Option Nat) : List Nat → Option Nat
  | [] => prev
  | a :: l => lastOr (some a) l

/-- Node `p` can be reached from the pointer `head` by following `next`. -/
def reachable (mem : Memory) (head : Option Nat) (p : Nat) : Prop :=
  ∃ n, p ∈ walk mem n head

/-- What can be observed of a queue in a store: its `head` and `count` fields and the
nodes met when following `next` from the head (at most `fuel` of them). -/
def view (mem : Memory) (fuel : Nat) (q : Option queue_t) : Option (queue_t × List Nat) :=
  q.map fun x => (x, walk mem fuel x.head)

/-- The result of a call together with the views of the ready and the stopped queue
after it. -/
def outcome (r : Option (Int × State)) :
    Option (Int × Option (queue_t × List Nat) × Option (queue_t × List Nat)) :=
  r.map fun x => (x.1, view x.2.mem 8 (readyQ x.2), view x.2.mem 8 (stoppedQ x.2))

/-- The process at `a` is starved at clock value `now`: it has waited at least
`TIME_STARVATION` since it last ran. -/
def starved (mem : Memory) (now : Int) (a : Nat) : Prop :=
  now - (mem a).time_last_run ≥ TIME_STARVATION

instance decStarved (mem : Memory) (now : Int) (a : Nat) : Decidable (starved mem now a) := by
  unfold starved; infer_instance

/-- Node `p` is the first starved node of the chain `l`. -/
def firstStarved (mem : Memory) (now : Int) (l : List Nat) (p : Nat) : Prop :=
  ∃ pre post, l = pre ++ p :: post ∧ starved mem now p ∧ ∀ a ∈ pre, ¬ starved mem now a

/-- The store after `srtf_reap`, `srtf_stop` or `srtf_continue` has unlinked the node `c`
found behind `previous`: `previous->next = c->next` when `previous` is not `NULL`. -/
def unlinkMem (mem : Memory) (previous : Option Nat) (c : Nat) : Memory :=
  match previous with
  | none => mem
  | some prev => setNext mem prev (mem c).next

/-- The queue after the node `c` found behind `previous` was unlinked: the head becomes
`c->next` when `previous` is `NULL`, and the count is one less. -/
def unlinkQueue (mem : Memory) (q : queue_t) (previous : Option Nat) (c : Nat) : queue_t :=
  match previous with
  | none => { head := (mem c).next, count := q.count - 1 }
  | some _ => { head := q.head, count := q.count - 1 }

/-- The store `mem2` differs from `mem` at most in chain pointers and in the low
`STATE_COUNT` bits of flags: command, pid, `time_remaining`, `time_last_run` and the flag
bits from position `STATE_COUNT` upward are the same at every address. -/
def keeps (mem mem2 : Memory) : Prop :=
  ∀ a, (mem2 a).command = (mem a).command ∧ (mem2 a).pid = (mem a).pid ∧
    (mem2 a).time_remaining = (mem a).time_remaining ∧
    (mem2 a).time_last_run = (mem a).time_last_run ∧
    (mem2 a).flags >>> STATE_COUNT = (mem a).flags >>> STATE_COUNT

/-- Every chain pointer of a node in `used` leads to a node in `used` whose pid is not
smaller. -/
def monotone (mem : Memory) (used : List Nat) : Prop :=
  ∀ x ∈ used, ∀ y, (mem x).next = some y → y ∈ used ∧ (mem x).pid ≤ (mem y).pid

/-- The head of the queue, when there is a queue and a head, is in `used`. -/
def headUsed (q : Option queue_t) (used : List Nat) : Prop :=
  ∀ x h, q = some x → x.head = some h → h ∈ used

/-- Chain pointers between the nodes of `used` never lead to a smaller pid, and the three
heads are nodes of `used`. -/
def Inv (s : State) (used : List Nat) : Prop :=
  monotone s.mem used ∧
  headUsed (readyQ s) used ∧ headUsed (stoppedQ s) used ∧ headUsed (defunctQ s) used

/-! ## Example states -/

/-- A node with the given fields and command text `"job"`. -/
def node (pid flags time_remaining time_last_run : Int) (next : Option Nat) : process_t :=
  { command := some "job", pid := pid, flags := flags, time_remaining := time_remaining,
    time_last_run := time_last_run, next := next }

/-- Three ready processes at addresses 1, 2, 3: pid 1 (5 units left), pid 2 (3 units left),
pid 3 (8 units left), all last run at time 10; the other queues are empty. -/
def exReady3 : State :=
  { mem := fun a =>
      if a = 1 then node 1 0x02 5 10 (some 2)
      else if a = 2 then node 2 0x02 3 10 (some 3)
      else if a = 3 then node 3 0x02 8 10 none
      else node 0 0 0 0 none
    header := some { ready_queue := some { head := some 1, count := 3 },
                     stopped_queue := some { head := none, count := 0 },
                     defunct_queue := some { head := none, count := 0 } } }

/-- Two ready processes at addresses 1 and 2: pid 1 (9 units left, last run at time 0) and
pid 2 (1 unit left, last run at time 10). -/
def exStarved : State :=
  { mem := fun a =>
      if a = 1 then node 1 0x02 9 0 (some 2)
      else if a = 2 then node 2 0x02 1 10 none
      else node 0 0 0 0 none
    header := some { ready_queue := some { head := some 1, count := 2 },
                     stopped_queue := some { head := none, count := 0 },
                     defunct_queue := some { head := none, count := 0 } } }

/-- Two defunct processes at addresses 1 and 2: pid 7 with exit code 3 (flags
`0x08 | 3 << 5`) at the head, then pid 9 with exit code 5 (flags `0x08 | 5 << 5`). -/
def exDefunct : State :=
  { mem := fun a =>
      if a = 1 then node 7 104 0 10 (some 2)
      else if a = 2 then node 9 168 0 10 none
      else node 0 0 0 0 none
    header := some { ready_queue := some { head := none, count := 0 },
                     stopped_queue := some { head := none, count := 0 },
                     defunct_queue := some { head := some 1, count := 2 } } }

/-- One ready process at address 1 (pid 3); the other queues are empty.  Outside the
queues: at address 5 a created process with the privilege bit (pid 7, flags `0x21`), at
address 6 a ready process with no time left (pid 4), at address 7 a ready process with 2
units left (pid 2), at address 8 a stopped process (pid 9). -/
def exAdd : State :=
  { mem := fun a =>
      if a = 1 then node 3 0x02 4 10 none
      else if a = 5 then node 7 0x21 5 10 none
      else if a = 6 then node 4 0x02 0 10 none
      else if a = 7 then node 2 0x02 2 10 none
      else if a = 8 then node 9 0x04 3 10 none
      else node 0 0 0 0 none
    header := some { ready_queue := some { head := some 1, count := 1 },
                     stopped_queue := some { head := none, count := 0 },
                     defunct_queue := some { head := none, count := 0 } } }

/-- Two ready processes at addresses 1 and 2 (pid 1, then pid 2); the stopped and the
defunct queue are empty.  This is the state after `srtf_init`, two `srtf_generate` and two
`srtf_add` calls. -/
def exStop : State :=
  { mem := fun a =>
      if a = 1 then node 1 0x02 5 10 (some 2)
      else if a = 2 then node 2 0x02 3 10 none
      else node 0 0 0 0 none
    header := some { ready_queue := some { head := some 1, count := 2 },
                     stopped_queue := some { head := none, count := 0 },
                     defunct_queue := some { head := none, count := 0 } } }

/-- The calls of a driver that generates and adds two processes (pid 1 at address 1, pid 2
at address 2, clock value 0) and then stops pid 1. -/
def exCalls : List Call :=
  [Call.generate 1 (some "a") 1 5 0 0, Call.add 1,
   Call.generate 2 (some "b") 2 3 0 0, Call.add 2,
   Call.stop 1]

/-- Three ready processes at addresses 1, 2, 3: pid 1 (2 units left, last run at time 8),
pid 2 (9 units left, last run at time 0), pid 3 (1 unit left, last run at time 0). -/
def exStarved3 : State :=
  { mem := fun a =>
      if a = 1 then node 1 0x02 2 8 (some 2)
      else if a = 2 then node 2 0x02 9 0 (some 3)
      else if a = 3 then node 3 0x02 1 0 none
      else node 0 0 0 0 none
    header := some { ready_queue := some { head := some 1, count := 3 },
                     stopped_queue := some { head := none, count := 0 },
                     defunct_queue := some { head := none, count := 0 } } }

/-- The calls of `exCalls` followed by: scheduling (pid 2 is returned), the driver setting
its `time_remaining` to 0, adding it again (it becomes defunct), reaping pid 2, and
generating and adding a process of pid 0 for which `calloc` returns the address 2 that
`srtf_reap` has just freed. -/
def exReuse : List Call :=
  exCalls ++
  [Call.schedule 1, Call.driver 2 0 1 0x02, Call.add 2, Call.reap 2,
   Call.generate 2 (some "c") 0 4 0 2, Call.add 2]

/-! ## Chains -/

theorem lseg_append (mem : Memory) (l1 l2 : List Nat) (p q : Option Nat) :
    lseg mem p (l1 ++ l2) q ↔ ∃ r, lseg mem p l1 r ∧ lseg mem r l2 q := by
  induction l1 generalizing p with
  | nil => simp [lseg]
  | cons a l ih =>
    show (p = some a ∧ lseg mem (mem a).next (l ++ l2) q) ↔
      ∃ r, (p = some a ∧ lseg mem (mem a).next l r) ∧ lseg mem r l2 q
    rw [ih]
    constructor
    · rintro ⟨h1, r, h2, h3⟩
      exact ⟨r, ⟨h1, h2⟩, h3⟩
    · rintro ⟨r, ⟨h1, h2⟩, h3⟩
      exact ⟨h1, r, h2, h3⟩

theorem lseg_snoc (mem : Memory) (l : List Nat) (a : Nat) (p q : Option Nat) :
    lseg mem p (l ++ [a]) q ↔ lseg mem p l (some a) ∧ (mem a).next = q := by
  rw [lseg_append]
  constructor
  · rintro ⟨r, h1, h2, h3⟩
    subst h2
    exact ⟨h1, h3⟩
  · rintro ⟨h1, h2⟩
    exact ⟨some a, h1, rfl, h2⟩

theorem chain_head (mem : Memory) (p : Option Nat) (l : List Nat) (h : chain mem p l) :
    p = l.head? := by
  cases l with
  | nil => exact h
  | cons a l => exact h.1

theorem chain_unique (mem : Memory) (l1 l2 : List Nat) (p : Option Nat)
    (h1 : chain mem p l1) (h2 : chain mem p l2) : l1 = l2 := by
  induction l1 generalizing p l2 with
  | nil =>
    cases l2 with
    | nil => rfl
    | cons b l2 =>
      have e1 : p = none := h1
      have e2 : p = some b := h2.1
      rw [e1] at e2
      cases e2
  | cons a l1 ih =>
    cases l2 with
    | nil =>
      have e1 : p = some a := h1.1
      have e2 : p = none := h2
      rw [e1] at e2
      cases e2
    | cons b l2 =>
      have e1 : p = some a := h1.1
      have e2 : p = some b := h2.1
      rw [e1] at e2
      cases e2
      rw [ih l2 _ h1.2 h2.2]

theorem chain_not_mem (mem : Memory) (a : Nat) (l : List Nat) (p : Option Nat)
    (h : chain mem p (a :: l)) : a ∉ l := by
  intro hm
  obtain ⟨s, t, rfl⟩ := List.append_of_mem hm
  have h2 : chain mem (mem a).next (s ++ a :: t) := h.2
  unfold chain at h2
  rw [lseg_append] at h2
  obtain ⟨r, _, h3, h4⟩ := h2
  have e := chain_unique mem _ _ _ h4 h.2
  have := congrArg List.length e
  simp at this
  omega

theorem chain_nodup (mem : Memory) (l : List Nat) (p : Option Nat) (h : chain mem p l) :
    l.Nodup := by
  induction l generalizing p with
  | nil => exact List.nodup_nil
  | cons a l ih => exact List.nodup_cons.2 ⟨chain_not_mem mem a l p h, ih _ h.2⟩

theorem lseg_frame (mem mem2 : Memory) (l : List Nat) (p q : Option Nat)
    (hf : ∀ a ∈ l, (mem2 a).next = (mem a).next) (h : lseg mem p l q) : lseg mem2 p l q := by
  induction l generalizing p with
  | nil => exact h
  | cons a l ih =>
    refine ⟨h.1, ?_⟩
    rw [hf a (List.mem_cons_self a l)]
    exact ih _ (fun b hb => hf b (List.mem_cons_of_mem a hb)) h.2

theorem setNext_next_self (mem : Memory) (a : Nat) (v : Option Nat) :
    (setNext mem a v a).next = v := by
  simp [setNext]

theorem setNext_other (mem : Memory) (a b : Nat) (v : Option Nat) (h : b ≠ a) :
    setNext mem a v b = mem b := by
  simp [setNext, h]

theorem setNext_sameData (mem : Memory) (a b : Nat) (v : Option Nat) :
    sameData (setNext mem a v b) (mem b) := by
  unfold setNext sameData
  by_cases h : b = a
  · subst h; simp
  · simp [h]

theorem setFlags_other (mem : Memory) (a b : Nat) (v : Int) (h : b ≠ a) :
    setFlags mem a v b = mem b := by
  simp [setFlags, h]

theorem setFlags_next (mem : Memory) (a b : Nat) (v : Int) :
    (setFlags mem a v b).next = (mem b).next := by
  unfold setFlags
  by_cases h : b = a
  · subst h; simp
  · simp [h]

theorem lseg_setNext (mem : Memory) (l : List Nat) (p q : Option Nat) (a : Nat)
    (v : Option Nat) (ha : a ∉ l) (h : lseg mem p l q) : lseg (setNext mem a v) p l q := by
  apply lseg_frame mem _ l p q _ h
  intro b hb
  rw [setNext_other]
  rintro rfl
  exact ha hb

theorem lseg_setFlags (mem : Memory) (l : List Nat) (p q : Option Nat) (a : Nat)
    (v : Int) (h : lseg mem p l q) : lseg (setFlags mem a v) p l q :=
  lseg_frame mem _ l p q (fun b _ => setFlags_next mem a b v) h

/-- Unlinking the node `c` that follows `prev`: `prev->next = c->next`. -/
theorem chain_unlink (mem : Memory) (pre post : List Nat) (prev c : Nat) (head : Option Nat)
    (h : chain mem head (pre ++ prev :: c :: post)) :
    chain (setNext mem prev (mem c).next) head (pre ++ prev :: post) := by
  have hnd := chain_nodup mem _ head h
  unfold chain at h ⊢
  rw [lseg_append] at h ⊢
  obtain ⟨r, h1, h2, h3, h4⟩ := h
  have hpre : prev ∉ pre := by
    intro hm
    have := (List.nodup_append.1 hnd).2.2
    exact this hm (List.mem_cons_self _ _)
  have hpost : prev ∉ post := by
    have := (List.nodup_cons.1 (List.nodup_append.1 hnd).2.1).1
    intro hm
    exact this (List.mem_cons_of_mem _ hm)
  refine ⟨r, lseg_setNext mem pre head r prev _ hpre h1, h2, ?_⟩
  rw [setNext_next_self]
  exact lseg_setNext mem post _ none prev _ hpost h4

/-! ## The scheduler -/

theorem schedule_loop_eq (mem : Memory) (now : Int) (R : List Nat) :
    ∀ (fuel current : Nat) (previous : Option Nat) (process : Nat),
      chain mem (mem current).next R → R.length < fuel →
      schedule_loop mem now fuel current previous process =
        some (pick mem now R current previous process) := by
  induction R with
  | nil =>
    intro fuel current previous process hc hf
    cases fuel with
    | zero => simp at hf
    | succ fuel =>
      have e : (mem current).next = none := hc
      simp [schedule_loop, pick, e]
  | cons n R ih =>
    intro fuel current previous process hc hf
    cases fuel with
    | zero => simp at hf
    | succ fuel =>
      have e : (mem current).next = some n := hc.1
      have hf2 : R.length < fuel := by simpa using hf
      simp only [schedule_loop, pick, e]
      split_ifs
      · rfl
      · exact ih fuel n (some current) n hc.2 hf2
      · exact ih fuel n previous process hc.2 hf2

theorem pick_predOf (mem : Memory) (now : Int) (R : List Nat) :
    ∀ (S : List Nat) (current : Nat) (previous : Option Nat) (process : Nat),
      predOf (S ++ [current]) previous process →
      predOf (S ++ current :: R) (pick mem now R current previous process).1
        (pick mem now R current previous process).2 := by
  induction R with
  | nil =>
    intro S current previous process h
    simpa [pick] using h
  | cons n R ih =>
    intro S current previous process h
    have e : S ++ current :: n :: R = (S ++ [current]) ++ n :: R := by simp
    simp only [pick]
    split_ifs
    · exact ⟨S ++ [current], R, e, by simp⟩
    · rw [e]
      exact ih (S ++ [current]) n (some current) n ⟨S ++ [current], [], rfl, by simp⟩
    · rw [e]
      apply ih (S ++ [current]) n previous process
      obtain ⟨pre, post, h1, h2⟩ := h
      exact ⟨pre, post ++ [n], by rw [h1]; simp, h2⟩

theorem pick_firstMin (mem : Memory) (now : Int) (R : List Nat) :
    ∀ (S : List Nat) (current : Nat) (previous : Option Nat) (process : Nat),
      (∀ a ∈ R, now - (mem a).time_last_run < TIME_STARVATION) →
      firstMin mem S process →
      firstMin mem (S ++ R) (pick mem now R current previous process).2 := by
  induction R with
  | nil =>
    intro S current previous process _ h
    simpa [pick] using h
  | cons n R ih =>
    intro S current previous process hs h
    have hn : ¬ (now - (mem n).time_last_run ≥ TIME_STARVATION) :=
      not_le.2 (hs n (List.mem_cons_self _ _))
    have hR : ∀ a ∈ R, now - (mem a).time_last_run < TIME_STARVATION :=
      fun a ha => hs a (List.mem_cons_of_mem _ ha)
    have e : S ++ n :: R = (S ++ [n]) ++ R := by simp
    simp only [pick, if_neg hn]
    obtain ⟨pre, post, h1, h2, h3⟩ := h
    split_ifs with hlt
    · rw [e]
      apply ih (S ++ [n]) n (some current) n hR
      refine ⟨S, [], rfl, ?_, by simp⟩
      intro a ha
      rw [h1] at ha
      rcases List.mem_append.1 ha with ha | ha
      · exact lt_trans hlt (h2 a ha)
      · rcases List.mem_cons.1 ha with ha | ha
        · subst ha; exact hlt
        · exact lt_of_lt_of_le hlt (h3 a ha)
    · rw [e]
      apply ih (S ++ [n]) n previous process hR
      refine ⟨pre, post ++ [n], by rw [h1]; simp, h2, ?_⟩
      intro a ha
      rcases List.mem_append.1 ha with ha | ha
      · exact h3 a ha
      · have : a = n := by simpa using ha
        subst this
        exact not_lt.1 hlt

theorem selection_predOf (mem : Memory) (now : Int) (h : Nat) (t : List Nat) :
    predOf (h :: t) (selection mem now h t).1 (selection mem now h t).2 := by
  unfold selection
  split_ifs
  · exact pick_predOf mem now t [] h none h ⟨[], [], rfl, rfl⟩
  · exact ⟨[], t, rfl, rfl⟩

theorem nil_or_snoc (l : List Nat) : l = [] ∨ ∃ l0 b, l = l0 ++ [b] := by
  rcases List.eq_nil_or_concat l with h | ⟨l0, b, h⟩
  · exact Or.inl h
  · exact Or.inr ⟨l0, b, by simpa using h⟩

/-- On a non-empty ready chain `h :: t`, `srtf_schedule` returns the node chosen by
`selection`, given fuel for the length of the chain. -/
theorem srtf_schedule_returns (fuel : Nat) (now : Int) (s : State) (qr : queue_t)
    (h : Nat) (t : List Nat) (hq : readyQ s = some qr) (hr : chain s.mem qr.head (h :: t))
    (hf : (h :: t).length < fuel) :
    ∃ s', srtf_schedule fuel now s = some (some (selection s.mem now h t).2, s') := by
  have hhead : qr.head = some h := hr.1
  have hf2 : t.length < fuel := by simp at hf; omega
  have hsel : (if now - (s.mem h).time_last_run < TIME_STARVATION then
        schedule_loop s.mem now fuel h none h else some (none, h)) =
      some (selection s.mem now h t) := by
    unfold selection
    split_ifs
    · exact schedule_loop_eq s.mem now t fuel h none h hr.2 hf2
    · rfl
  unfold readyQ at hq
  cases hhd : s.header with
  | none => simp [hhd] at hq
  | some hd =>
    have hq2 : hd.ready_queue = some qr := by simpa [hhd] using hq
    generalize selection s.mem now h t = sel at hsel ⊢
    obtain ⟨prev, p⟩ := sel
    cases prev with
    | none => exact ⟨_, by simp only [srtf_schedule, hhd, hq2, hhead, hsel]; rfl⟩
    | some b => exact ⟨_, by simp only [srtf_schedule, hhd, hq2, hhead, hsel]; rfl⟩

/-! ## The chain walk `scan` and `srtf_enqueue` -/

theorem lastOr_snoc (prev : Option Nat) (l : List Nat) (b : Nat) :
    lastOr prev (l ++ [b]) = some b := by
  induction l generalizing prev with
  | nil => rfl
  | cons a l ih => exact ih (some a)

/-- The loop `scan` on a chain `l`: it stops at the first node satisfying `test`, splitting
`l` into the nodes walked over and the rest. -/
theorem scan_split (mem : Memory) (test : process_t → Bool) (l : List Nat) :
    ∃ pre post, l = pre ++ post ∧ (∀ a ∈ pre, test (mem a) = false) ∧
      (∀ c, post.head? = some c → test (mem c) = true) ∧
      ∀ (fuel : Nat) (prev cur : Option Nat), chain mem cur l → l.length < fuel →
        scan mem test fuel prev cur = some (lastOr prev pre, post.head?) := by
  induction l with
  | nil =>
    refine ⟨[], [], rfl, by simp, by simp, ?_⟩
    intro fuel prev cur hc hf
    have e : cur = none := hc
    subst e
    cases fuel with
    | zero => simp at hf
    | succ fuel => rfl
  | cons a l ih =>
    by_cases ht : test (mem a) = true
    · refine ⟨[], a :: l, rfl, by simp, by simpa using ht, ?_⟩
      intro fuel prev cur hc hf
      have e : cur = some a := hc.1
      subst e
      cases fuel with
      | zero => simp at hf
      | succ fuel => simp [scan, ht, lastOr]
    · obtain ⟨pre, post, h1, h2, h3, h4⟩ := ih
      refine ⟨a :: pre, post, by rw [h1]; rfl, ?_, h3, ?_⟩
      · intro b hb
        rcases List.mem_cons.1 hb with hb | hb
        · subst hb; simpa using ht
        · exact h2 b hb
      · intro fuel prev cur hc hf
        have e : cur = some a := hc.1
        subst e
        cases fuel with
        | zero => simp at hf
        | succ fuel =>
          have hf2 : l.length < fuel := by simpa using hf
          simp only [scan, ht, lastOr]
          exact h4 fuel (some a) _ hc.2 hf2

theorem insertByPid_split (mem : Memory) (pid : Int) (x : Nat) (pre post : List Nat)
    (h1 : ∀ a ∈ pre, decide ((mem a).pid ≥ pid) = false)
    (h2 : ∀ c, post.head? = some c → decide ((mem c).pid ≥ pid) = true) :
    insertByPid mem pid x (pre ++ post) = pre ++ x :: post := by
  induction pre with
  | nil =>
    cases post with
    | nil => rfl
    | cons c post =>
      have : (mem c).pid ≥ pid := by simpa using h2 c rfl
      simp [insertByPid, this]
  | cons a pre ih =>
    have : ¬ (mem a).pid ≥ pid := by simpa using h1 a (List.mem_cons_self _ _)
    show (if (mem a).pid ≥ pid then x :: a :: (pre ++ post)
      else a :: insertByPid mem pid x (pre ++ post)) = a :: (pre ++ x :: post)
    rw [if_neg this, ih (fun b hb => h1 b (List.mem_cons_of_mem _ hb))]

/-- Linking the node `x` in front of a chain: `x->next = current`. -/
theorem chain_link_front (mem : Memory) (post : List Nat) (x : Nat) (cur : Option Nat)
    (hx : x ∉ post) (h : chain mem cur post) :
    chain (setNext mem x cur) (some x) (x :: post) := by
  refine ⟨rfl, ?_⟩
  rw [setNext_next_self]
  exact lseg_setNext mem post cur none x cur hx h

/-- Linking the node `x` after the node `b`: `b->next = x; x->next = current`. -/
theorem chain_link_after (mem : Memory) (pre post : List Nat) (b x : Nat)
    (head : Option Nat) (hx : x ∉ pre ++ b :: post)
    (h : chain mem head (pre ++ b :: post)) :
    chain (setNext (setNext mem b (some x)) x (mem b).next) head (pre ++ b :: x :: post) := by
  have hnd := chain_nodup mem _ head h
  have hb_pre : b ∉ pre := fun hm =>
    (List.nodup_append.1 hnd).2.2 hm (List.mem_cons_self _ _)
  have hb_post : b ∉ post := (List.nodup_cons.1 (List.nodup_append.1 hnd).2.1).1
  have hx_pre : x ∉ pre := fun hm => hx (List.mem_append_left _ hm)
  have hx_b : x ≠ b := fun e => hx (by simp [e])
  have hx_post : x ∉ post := fun hm => hx (by simp [hm])
  unfold chain at h ⊢
  rw [lseg_append] at h ⊢
  obtain ⟨r, h1, h2, h3⟩ := h
  refine ⟨r, ?_, h2, ?_, ?_⟩
  · exact lseg_setNext _ _ _ _ _ _ hx_pre (lseg_setNext _ _ _ _ _ _ hb_pre h1)
  · rw [setNext_other _ _ _ _ (Ne.symm hx_b), setNext_next_self]
  · show lseg _ (setNext (setNext mem b (some x)) x (mem b).next x).next post none
    rw [setNext_next_self]
    exact lseg_setNext _ _ _ _ _ _ hx_post (lseg_setNext _ _ _ _ _ _ hb_post h3)

/-- `srtf_enqueue` returns whenever the queue holds a finite chain and the fuel covers
its length. -/
theorem srtf_enqueue_some (fuel : Nat) (mem : Memory) (q : queue_t) (x : Nat) (l : List Nat)
    (hc : chain mem q.head l) (hf : l.length < fuel) :
    ∃ r, srtf_enqueue fuel mem q x = some r := by
  obtain ⟨pre, post, -, -, -, h4⟩ :=
    scan_split mem (fun c => decide (c.pid ≥ (mem x).pid)) l
  unfold srtf_enqueue
  cases hh : q.head with
  | none => exact ⟨_, rfl⟩
  | some h =>
    rw [hh] at hc
    simp only [h4 fuel none (some h) hc hf]
    cases lastOr none pre with
    | none => exact ⟨_, rfl⟩
    | some b => exact ⟨_, rfl⟩

/-- `srtf_enqueue` of a node `x` that is not on the chain `l` of the queue (and whose chain
pointer is `NULL` in case the queue is empty): the queue then holds `l` with `x` inserted
before the first node whose pid is not smaller, and its count is one more. -/
theorem srtf_enqueue_spec (fuel : Nat) (mem : Memory) (q : queue_t) (x : Nat) (l : List Nat)
    (hc : chain mem q.head l) (hx : x ∉ l) (hdet : l = [] → (mem x).next = none)
    (hf : l.length < fuel) :
    ∃ mem2 q2, srtf_enqueue fuel mem q x = some (mem2, q2) ∧
      q2.count = q.count + 1 ∧
      chain mem2 q2.head (insertByPid mem (mem x).pid x l) ∧
      (∀ a, a ∉ l → a ≠ x → mem2 a = mem a) ∧
      (∀ a, sameData (mem2 a) (mem a)) := by
  obtain ⟨pre, post, h1, h2, h3, h4⟩ :=
    scan_split mem (fun c => decide (c.pid ≥ (mem x).pid)) l
  have hins := insertByPid_split mem (mem x).pid x pre post h2 h3
  rw [← h1] at hins
  rw [hins]
  unfold srtf_enqueue
  cases hh : q.head with
  | none =>
    rw [hh] at hc
    have hl : l = [] := by
      cases l with
      | nil => rfl
      | cons a l => exact absurd hc.1 (by simp)
    have hpp : pre = [] ∧ post = [] := by
      rw [hl] at h1
      exact List.append_eq_nil.1 h1.symm
    rw [hpp.1, hpp.2]
    refine ⟨mem, _, rfl, rfl, ⟨rfl, hdet hl⟩, fun a _ _ => rfl, fun a => ?_⟩
    exact ⟨rfl, rfl, rfl, rfl, rfl⟩
  | some h =>
    rw [hh] at hc
    simp only [h4 fuel none (some h) hc hf]
    rw [h1] at hc hx
    have hx_post : x ∉ post := fun hm => hx (List.mem_append_right _ hm)
    rcases nil_or_snoc pre with rfl | ⟨pre0, b, rfl⟩
    · have hc2 : chain mem (some h) post := by simpa using hc
      have hcur : some h = post.head? := chain_head _ _ _ hc2
      refine ⟨_, _, rfl, rfl, ?_, ?_, fun a => setNext_sameData _ _ _ _⟩
      · show chain (setNext mem x post.head?) (some x) ([] ++ x :: post)
        rw [← hcur]
        exact chain_link_front mem post x (some h) hx_post hc2
      · intro a _ hax
        exact setNext_other _ _ _ _ hax
    · rw [lastOr_snoc]
      have hc2 : chain mem (some h) (pre0 ++ b :: post) := by simpa using hc
      have hx2 : x ∉ pre0 ++ b :: post := by simpa using hx
      have hbnext : (mem b).next = post.head? := by
        unfold chain at hc2
        rw [lseg_append] at hc2
        obtain ⟨r, -, -, h5⟩ := hc2
        exact chain_head _ _ _ h5
      refine ⟨_, _, rfl, rfl, ?_, ?_, fun a => ?_⟩
      · show chain (setNext (setNext mem b (some x)) x post.head?) (some h)
          (pre0 ++ [b] ++ x :: post)
        rw [← hbnext]
        have := chain_link_after mem pre0 post b x (some h) hx2 hc2
        simpa using this
      · intro a ha hax
        have hab : a ≠ b := fun e => ha (by rw [h1]; simp [e])
        show setNext (setNext mem b (some x)) x post.head? a = mem a
        rw [setNext_other _ _ _ _ hax, setNext_other _ _ _ _ hab]
      · have k1 := setNext_sameData (setNext mem b (some x)) x a post.head?
        have k2 := setNext_sameData mem b a (some x)
        unfold sameData at *
        exact ⟨k1.1.trans k2.1, k1.2.1.trans k2.2.1, k1.2.2.1.trans k2.2.2.1,
          k1.2.2.2.1.trans k2.2.2.2.1, k1.2.2.2.2.trans k2.2.2.2.2⟩

/-! ## The state field of `flags` -/

theorem stateOf_bits (f : Int) :
    ∃ k : Nat, stateOf f = (k : Int) ∧ ∀ i, k.testBit i = (Int.testBit f i && decide (i < 5)) := by
  cases f with
  | ofNat n =>
    refine ⟨n &&& 31, rfl, fun i => ?_⟩
    have : (31 : Nat) = 2 ^ 5 - 1 := by norm_num
    rw [Nat.testBit_and, this, Nat.testBit_two_pow_sub_one]
    rfl
  | negSucc n =>
    refine ⟨Nat.ldiff 31 n, rfl, fun i => ?_⟩
    have : (31 : Nat) = 2 ^ 5 - 1 := by norm_num
    rw [Nat.testBit_ldiff, this, Nat.testBit_two_pow_sub_one, Bool.and_comm]
    rfl

theorem stateOf_xor (f : Int) (a b m : Nat) (ha : a < 32) (hb : b < 32)
    (hm : ∀ i, i < 5 → b.testBit i = xor (a.testBit i) (m.testBit i))
    (h : stateOf f = (a : Int)) : stateOf (Int.xor f (m : Int)) = (b : Int) := by
  obtain ⟨k, hk, hbits⟩ := stateOf_bits f
  obtain ⟨k2, hk2, hbits2⟩ := stateOf_bits (Int.xor f (m : Int))
  rw [hk2]
  have hka : k = a := by
    rw [hk] at h
    exact_mod_cast h
  subst hka
  congr 1
  apply Nat.eq_of_testBit_eq
  intro i
  rw [hbits2, Int.testBit_lxor]
  by_cases hi : i < 5
  · rw [hm i hi, hbits i]
    simp [hi, Int.testBit]
  · have h1 : b.testBit i = false := by
      apply Nat.testBit_lt_two_pow
      calc b < 32 := hb
        _ = 2 ^ 5 := by norm_num
        _ ≤ 2 ^ i := Nat.pow_le_pow_right (by norm_num) (by omega)
    simp [hi, h1]

theorem stateOf_created_to_ready (f : Int) (h : stateOf f = STATE_CREATED) :
    stateOf (Int.xor f (STATE_CREATED + STATE_READY)) = STATE_READY := by
  have := stateOf_xor f 1 2 3 (by norm_num) (by norm_num) (by intro i hi; interval_cases i <;> decide) h
  exact this

theorem stateOf_ready_to_defunct (f : Int) (h : stateOf f = STATE_READY) :
    stateOf (Int.xor f (STATE_READY + STATE_DEFUNCT)) = STATE_DEFUNCT :=
  stateOf_xor f 2 8 10 (by norm_num) (by norm_num) (by intro i hi; interval_cases i <;> decide) h

/-! ## Reachability and ordered insertion -/

theorem walk_chain (mem : Memory) (l : List Nat) (p : Option Nat) (h : chain mem p l) :
    walk mem (l.length + 1) p = l := by
  induction l generalizing p with
  | nil =>
    have e : p = none := h
    subst e
    rfl
  | cons a l ih =>
    have e : p = some a := h.1
    subst e
    show a :: walk mem (l.length + 1) (mem a).next = a :: l
    rw [ih _ h.2]

theorem reachable_of_chain (mem : Memory) (l : List Nat) (head : Option Nat) (p : Nat)
    (h : chain mem head l) (hp : p ∈ l) : reachable mem head p :=
  ⟨l.length + 1, by rw [walk_chain mem l head h]; exact hp⟩

theorem mem_insertByPid (mem : Memory) (pid : Int) (x a : Nat) (l : List Nat) :
    a ∈ insertByPid mem pid x l ↔ a = x ∨ a ∈ l := by
  induction l with
  | nil => simp [insertByPid]
  | cons b l ih =>
    simp only [insertByPid]
    split_ifs
    · simp
    · simp only [List.mem_cons, ih]
      tauto

theorem insertByPid_congr (mem mem2 : Memory) (pid : Int) (x : Nat) (l : List Nat)
    (h : ∀ a, (mem2 a).pid = (mem a).pid) :
    insertByPid mem2 pid x l = insertByPid mem pid x l := by
  induction l with
  | nil => rfl
  | cons b l ih => simp only [insertByPid, h b, ih]

/-- A chain that shares no node with the chain `l` and does not contain `x` is not
affected by a store update that only touches `l` and `x`. -/
theorem chain_frame_other (mem mem2 : Memory) (l other : List Nat) (x : Nat)
    (head : Option Nat) (hfr : ∀ a, a ∉ l → a ≠ x → mem2 a = mem a)
    (hd : ∀ a ∈ other, a ∉ l) (hx : x ∉ other) (h : chain mem head other) :
    chain mem2 head other ∧ ∀ a ∈ other, mem2 a = mem a := by
  have key : ∀ a ∈ other, mem2 a = mem a := fun a ha =>
    hfr a (hd a ha) (fun e => hx (e ▸ ha))
  exact ⟨lseg_frame mem mem2 other head none (fun a ha => by rw [key a ha]) h, key⟩

/-- `srtf_enqueue` of a node `x` that is not on the chain `l` of the queue: afterwards `x`
can be reached from the head and the count is one more; unless the queue was empty and
`x->next` was not `NULL`, the queue holds `l` with `x` inserted in pid order. -/
theorem srtf_enqueue_present (fuel : Nat) (mem : Memory) (q : queue_t) (x : Nat)
    (l : List Nat) (hc : chain mem q.head l) (hx : x ∉ l) (hf : l.length < fuel) :
    ∃ mem2 q2, srtf_enqueue fuel mem q x = some (mem2, q2) ∧
      q2.count = q.count + 1 ∧ reachable mem2 q2.head x ∧
      (∀ a, a ∉ l → a ≠ x → mem2 a = mem a) ∧
      (∀ a, sameData (mem2 a) (mem a)) ∧
      (l ≠ [] ∨ (mem x).next = none →
        chain mem2 q2.head (insertByPid mem (mem x).pid x l)) := by
  cases l with
  | nil =>
    have hh : q.head = none := hc
    refine ⟨mem, { head := some x, count := q.count + 1 }, by simp [srtf_enqueue, hh], rfl,
      ⟨1, by simp [walk]⟩, fun a _ _ => rfl, fun a => ⟨rfl, rfl, rfl, rfl, rfl⟩, ?_⟩
    intro h
    rcases h with h | h
    · exact absurd rfl h
    · exact ⟨rfl, h⟩
  | cons b l =>
    obtain ⟨mem2, q2, h1, h2, h3, h4, h5⟩ :=
      srtf_enqueue_spec fuel mem q x (b :: l) hc hx (fun e => by simp at e) hf
    exact ⟨mem2, q2, h1, h2,
      reachable_of_chain mem2 _ _ x h3 ((mem_insertByPid _ _ _ _ _).2 (Or.inl rfl)),
      h4, h5, fun _ => h3⟩

/-! ## `srtf_add` -/

/-- `srtf_enqueue` of a node `x` into the queue with chain `l`, seen from two other chains
`o1` and `o2` that share no node with `l` and do not contain `x`. -/
theorem srtf_enqueue_frame (fuel : Nat) (mem : Memory) (q : queue_t) (x : Nat)
    (l o1 o2 : List Nat) (p1 p2 : Option Nat) (hc : chain mem q.head l)
    (h1 : chain mem p1 o1) (h2 : chain mem p2 o2)
    (d1 : ∀ a ∈ o1, a ∉ l) (d2 : ∀ a ∈ o2, a ∉ l)
    (hx : x ∉ l) (hx1 : x ∉ o1) (hx2 : x ∉ o2) (hf : l.length < fuel) :
    ∃ mem2 q2, srtf_enqueue fuel mem q x = some (mem2, q2) ∧
      q2.count = q.count + 1 ∧ reachable mem2 q2.head x ∧
      chain mem2 p1 o1 ∧ chain mem2 p2 o2 ∧
      (∀ a ∈ o1, mem2 a = mem a) ∧ (∀ a ∈ o2, mem2 a = mem a) ∧
      (∀ a, sameData (mem2 a) (mem a)) ∧
      (l ≠ [] ∨ (mem x).next = none →
        chain mem2 q2.head (insertByPid mem (mem x).pid x l) ∧
        (∀ a ∈ o1, a ∉ insertByPid mem (mem x).pid x l) ∧
        (∀ a ∈ o2, a ∉ insertByPid mem (mem x).pid x l)) := by
  obtain ⟨mem2, q2, e1, e2, e3, e4, e5, e6⟩ := srtf_enqueue_present fuel mem q x l hc hx hf
  obtain ⟨f1, g1⟩ := chain_frame_other mem mem2 l o1 x p1 e4 d1 hx1 h1
  obtain ⟨f2, g2⟩ := chain_frame_other mem mem2 l o2 x p2 e4 d2 hx2 h2
  refine ⟨mem2, q2, e1, e2, e3, f1, f2, g1, g2, e5, fun hcond => ⟨e6 hcond, ?_, ?_⟩⟩
  · intro a ha hm
    rcases (mem_insertByPid _ _ _ _ _).1 hm with e | hm
    · exact hx1 (e ▸ ha)
    · exact d1 a ha hm
  · intro a ha hm
    rcases (mem_insertByPid _ _ _ _ _).1 hm with e | hm
    · exact hx2 (e ▸ ha)
    · exact d2 a ha hm

/-- The body of `srtf_add` once the header and its three queues are known to be present. -/
theorem srtf_add_unfold (fuel : Nat) (s : State) (qr qs qd : queue_t) (p : Nat)
    (hh : s.header = some { ready_queue := some qr, stopped_queue := some qs,
                            defunct_queue := some qd }) :
    srtf_add fuel s (some p) =
      if (s.mem p).time_remaining < 0 then some (FAILURE, s)
      else if stateOf (s.mem p).flags = STATE_CREATED then
        match srtf_enqueue fuel
          (setFlags s.mem p (Int.xor (s.mem p).flags (STATE_CREATED + STATE_READY))) qr p with
        | none => none
        | some (mem2, q) =>
          some (SUCCESS,
            { mem := mem2,
              header := some { ready_queue := some q, stopped_queue := some qs,
                               defunct_queue := some qd } })
      else if stateOf (s.mem p).flags = STATE_READY then
        if (s.mem p).time_remaining > 0 then
          match srtf_enqueue fuel s.mem qr p with
          | none => none
          | some (mem2, q) =>
            some (SUCCESS,
            { mem := mem2,
              header := some { ready_queue := some q, stopped_queue := some qs,
                               defunct_queue := some qd } })
        else
          match srtf_enqueue fuel
            (setFlags s.mem p (Int.xor (s.mem p).flags (STATE_READY + STATE_DEFUNCT))) qd p with
          | none => none
          | some (mem2, q) =>
            some (SUCCESS,
            { mem := mem2,
              header := some { ready_queue := some qr, stopped_queue := some qs,
                               defunct_queue := some q } })
      else if stateOf (s.mem p).flags = STATE_DEFUNCT then
        match srtf_enqueue fuel s.mem qd p with
        | none => none
        | some (mem2, q) =>
          some (SUCCESS,
            { mem := mem2,
              header := some { ready_queue := some qr, stopped_queue := some qs,
                               defunct_queue := some q } })
      else some (FAILURE, s) := by
  simp only [srtf_add, hh, stateOf]

theorem setFlags_flags_self (mem : Memory) (a : Nat) (v : Int) :
    (setFlags mem a v a).flags = v := by
  simp [setFlags]

theorem setFlags_pid (mem : Memory) (a b : Nat) (v : Int) :
    (setFlags mem a v b).pid = (mem b).pid := by
  unfold setFlags
  by_cases h : b = a
  · subst h; simp
  · simp [h]

/-! ## Starvation -/

theorem pick_firstStarved (mem : Memory) (now : Int) (R : List Nat) :
    ∀ (current : Nat) (previous : Option Nat) (process : Nat),
      (∃ a ∈ R, starved mem now a) →
      firstStarved mem now R (pick mem now R current previous process).2 := by
  induction R with
  | nil =>
    intro current previous process h
    obtain ⟨a, ha, -⟩ := h
    simp at ha
  | cons n R ih =>
    intro current previous process h
    by_cases hn : starved mem now n
    · have hn2 : now - (mem n).time_last_run ≥ TIME_STARVATION := hn
      simp only [pick, if_pos hn2]
      exact ⟨[], R, rfl, hn, by simp⟩
    · have hn2 : ¬ now - (mem n).time_last_run ≥ TIME_STARVATION := hn
      have hex : ∃ a ∈ R, starved mem now a := by
        obtain ⟨a, ha, hs⟩ := h
        rcases List.mem_cons.1 ha with e | ha
        · subst e; exact absurd hs hn
        · exact ⟨a, ha, hs⟩
      have lift : ∀ p, firstStarved mem now R p → firstStarved mem now (n :: R) p := by
        rintro p ⟨pre, post, h1, h2, h3⟩
        refine ⟨n :: pre, post, by rw [h1]; rfl, h2, ?_⟩
        intro a ha
        rcases List.mem_cons.1 ha with e | ha
        · subst e; exact hn
        · exact h3 a ha
      simp only [pick, if_neg hn2]
      split_ifs
      · exact lift _ (ih n (some current) n hex)
      · exact lift _ (ih n previous process hex)

/-! ## Ordered insertion and sortedness -/

theorem insertByPid_eq (mem : Memory) (pid : Int) (x : Nat) (l : List Nat) :
    ∃ pre post, l = pre ++ post ∧ insertByPid mem pid x l = pre ++ x :: post ∧
      (∀ a ∈ pre, (mem a).pid < pid) ∧ (∀ c, post.head? = some c → (mem c).pid ≥ pid) := by
  induction l with
  | nil => exact ⟨[], [], rfl, rfl, by simp, by simp⟩
  | cons b l ih =>
    by_cases hb : (mem b).pid ≥ pid
    · refine ⟨[], b :: l, rfl, by simp [insertByPid, hb], by simp, ?_⟩
      intro c hc
      have : b = c := by simpa using hc
      subst this
      exact hb
    · obtain ⟨pre, post, h1, h2, h3, h4⟩ := ih
      refine ⟨b :: pre, post, congrArg (List.cons b) h1, ?_, ?_, h4⟩
      · show insertByPid mem pid x (b :: l) = b :: (pre ++ x :: post)
        simp only [insertByPid, if_neg hb, h2]
      · intro a ha
        rcases List.mem_cons.1 ha with e | ha
        · subst e; exact not_le.1 hb
        · exact h3 a ha

theorem sortedByPid_insert (mem : Memory) (x : Nat) (pre post : List Nat)
    (hs : sortedByPid mem (pre ++ post)) (h1 : ∀ a ∈ pre, (mem a).pid < (mem x).pid)
    (h2 : ∀ c, post.head? = some c → (mem c).pid ≥ (mem x).pid) :
    sortedByPid mem (pre ++ x :: post) := by
  unfold sortedByPid at hs ⊢
  rw [List.pairwise_append] at hs ⊢
  obtain ⟨s1, s2, s3⟩ := hs
  have hpost : ∀ b ∈ post, (mem x).pid ≤ (mem b).pid := by
    cases post with
    | nil => simp
    | cons c post =>
      have hc : (mem x).pid ≤ (mem c).pid := h2 c rfl
      intro b hb
      rcases List.mem_cons.1 hb with e | hb
      · subst e; exact hc
      · exact le_trans hc ((List.pairwise_cons.1 s2).1 b hb)
  refine ⟨s1, List.pairwise_cons.2 ⟨hpost, s2⟩, ?_⟩
  intro a ha b hb
  rcases List.mem_cons.1 hb with e | hb
  · subst e; exact le_of_lt (h1 a ha)
  · exact s3 a ha b hb

theorem sortedByPid_congr (mem mem2 : Memory) (l : List Nat)
    (h : ∀ a, (mem2 a).pid = (mem a).pid) (hs : sortedByPid mem l) : sortedByPid mem2 l := by
  unfold sortedByPid at hs ⊢
  exact hs.imp (fun {a b} hab => by rw [h a, h b]; exact hab)

/-! ## What a call can do to a state

The following statements hold for every state, well-formed or not. -/

theorem srtf_stop_eq (fuel : Nat) (s : State) (pid : Int) (hdr : header_t) (ready : queue_t)
    (hd : Nat) (hh : s.header = some hdr) (hr : hdr.ready_queue = some ready)
    (hhead : ready.head = some hd) :
    srtf_stop fuel s pid =
      match scan s.mem (fun x => decide (x.pid = pid)) fuel none (some hd) with
      | none => none
      | some (_, none) => some (FAILURE, s)
      | some (previous, some c) =>
        match hdr.stopped_queue with
        | none => none
        | some stopped =>
          match srtf_enqueue fuel
            (setFlags (unlinkMem s.mem previous c) c
              (Int.xor (unlinkMem s.mem previous c c).flags (STATE_READY + STATE_STOPPED)))
            stopped c with
          | none => none
          | some (mem3, q) =>
            some (SUCCESS,
              { mem := mem3,
                header := some { ready_queue := some (unlinkQueue s.mem ready previous c),
                                 stopped_queue := some q,
                                 defunct_queue := hdr.defunct_queue } }) := by
  simp only [srtf_stop, hh, hr, hhead]
  cases scan s.mem (fun x => decide (x.pid = pid)) fuel none (some hd) with
  | none => rfl
  | some x =>
    obtain ⟨previous, cur⟩ := x
    cases cur with
    | none => rfl
    | some c => cases previous <;> simp only [unlinkMem, unlinkQueue, hhead]

theorem srtf_stop_effect (fuel : Nat) (s : State) (pid r : Int) (s' : State)
    (h : srtf_stop fuel s pid = some (r, s')) :
    (r = FAILURE ∧ s' = s) ∨
    ∃ hdr ready stopped hd previous c mem3 q,
      s.header = some hdr ∧ hdr.ready_queue = some ready ∧
      hdr.stopped_queue = some stopped ∧ ready.head = some hd ∧
      scan s.mem (fun x => decide (x.pid = pid)) fuel none (some hd) =
        some (previous, some c) ∧
      srtf_enqueue fuel
        (setFlags (unlinkMem s.mem previous c) c
          (Int.xor (unlinkMem s.mem previous c c).flags (STATE_READY + STATE_STOPPED)))
        stopped c = some (mem3, q) ∧
      r = SUCCESS ∧
      s' = { mem := mem3,
             header := some { ready_queue := some (unlinkQueue s.mem ready previous c),
                              stopped_queue := some q,
                              defunct_queue := hdr.defunct_queue } } := by
  have fail : ∀ {x : Int × State}, some (FAILURE, s) = some x → x = (r, s') →
      r = FAILURE ∧ s' = s := by
    intro x h1 h2
    have := Option.some.inj h1
    rw [h2] at this
    exact ⟨(congrArg Prod.fst this).symm, (congrArg Prod.snd this).symm⟩
  cases hh : s.header with
  | none =>
    have e : srtf_stop fuel s pid = some (FAILURE, s) := by simp [srtf_stop, hh]
    exact Or.inl (fail (e.symm.trans h) rfl)
  | some hdr =>
    cases hr : hdr.ready_queue with
    | none =>
      have e : srtf_stop fuel s pid = some (FAILURE, s) := by simp [srtf_stop, hh, hr]
      exact Or.inl (fail (e.symm.trans h) rfl)
    | some ready =>
      cases hhead : ready.head with
      | none =>
        have e : srtf_stop fuel s pid = some (FAILURE, s) := by
          simp [srtf_stop, hh, hr, hhead]
        exact Or.inl (fail (e.symm.trans h) rfl)
      | some hd =>
        rw [srtf_stop_eq fuel s pid hdr ready hd hh hr hhead] at h
        cases hscan : scan s.mem (fun x => decide (x.pid = pid)) fuel none (some hd) with
        | none => rw [hscan] at h; cases h
        | some x =>
          obtain ⟨previous, cur⟩ := x
          rw [hscan] at h
          cases cur with
          | none => exact Or.inl (fail h rfl)
          | some c =>
            simp only at h
            cases hst : hdr.stopped_queue with
            | none => rw [hst] at h; cases h
            | some stopped =>
              rw [hst] at h
              simp only at h
              cases henq : srtf_enqueue fuel
                  (setFlags (unlinkMem s.mem previous c) c
                    (Int.xor (unlinkMem s.mem previous c c).flags
                      (STATE_READY + STATE_STOPPED))) stopped c with
              | none => rw [henq] at h; cases h
              | some y =>
                obtain ⟨mem3, q⟩ := y
                rw [henq] at h
                have e := Option.some.inj h
                exact Or.inr ⟨hdr, ready, stopped, hd, previous, c, mem3, q, rfl, hr, hst,
                  hhead, hscan, henq, (congrArg Prod.fst e).symm, (congrArg Prod.snd e).symm⟩

theorem srtf_continue_eq (fuel : Nat) (s : State) (pid : Int) (hdr : header_t) (stopped : queue_t)
    (hd : Nat) (hh : s.header = some hdr) (hr : hdr.stopped_queue = some stopped)
    (hhead : stopped.head = some hd) :
    srtf_continue fuel s pid =
      match scan s.mem (fun x => decide (x.pid = pid)) fuel none (some hd) with
      | none => none
      | some (_, none) => some (FAILURE, s)
      | some (previous, some c) =>
        match hdr.ready_queue with
        | none => none
        | some ready =>
          match srtf_enqueue fuel
            (setFlags (unlinkMem s.mem previous c) c
              (Int.xor (unlinkMem s.mem previous c c).flags (STATE_STOPPED + STATE_READY)))
            ready c with
          | none => none
          | some (mem3, q) =>
            some (SUCCESS,
              { mem := mem3,
                header := some { stopped_queue := some (unlinkQueue s.mem stopped previous c),
                                 ready_queue := some q,
                                 defunct_queue := hdr.defunct_queue } }) := by
  simp only [srtf_continue, hh, hr, hhead]
  cases scan s.mem (fun x => decide (x.pid = pid)) fuel none (some hd) with
  | none => rfl
  | some x =>
    obtain ⟨previous, cur⟩ := x
    cases cur with
    | none => rfl
    | some c => cases previous <;> simp only [unlinkMem, unlinkQueue, hhead]

theorem srtf_continue_effect (fuel : Nat) (s : State) (pid r : Int) (s' : State)
    (h : srtf_continue fuel s pid = some (r, s')) :
    (r = FAILURE ∧ s' = s) ∨
    ∃ hdr stopped ready hd previous c mem3 q,
      s.header = some hdr ∧ hdr.stopped_queue = some stopped ∧
      hdr.ready_queue = some ready ∧ stopped.head = some hd ∧
      scan s.mem (fun x => decide (x.pid = pid)) fuel none (some hd) =
        some (previous, some c) ∧
      srtf_enqueue fuel
        (setFlags (unlinkMem s.mem previous c) c
          (Int.xor (unlinkMem s.mem previous c c).flags (STATE_STOPPED + STATE_READY)))
        ready c = some (mem3, q) ∧
      r = SUCCESS ∧
      s' = { mem := mem3,
             header := some { stopped_queue := some (unlinkQueue s.mem stopped previous c),
                              ready_queue := some q,
                              defunct_queue := hdr.defunct_queue } } := by
  have fail : ∀ {x : Int × State}, some (FAILURE, s) = some x → x = (r, s') →
      r = FAILURE ∧ s' = s := by
    intro x h1 h2
    have := Option.some.inj h1
    rw [h2] at this
    exact ⟨(congrArg Prod.fst this).symm, (congrArg Prod.snd this).symm⟩
  cases hh : s.header with
  | none =>
    have e : srtf_continue fuel s pid = some (FAILURE, s) := by simp [srtf_continue, hh]
    exact Or.inl (fail (e.symm.trans h) rfl)
  | some hdr =>
    cases hr : hdr.stopped_queue with
    | none =>
      have e : srtf_continue fuel s pid = some (FAILURE, s) := by simp [srtf_continue, hh, hr]
      exact Or.inl (fail (e.symm.trans h) rfl)
    | some stopped =>
      cases hhead : stopped.head with
      | none =>
        have e : srtf_continue fuel s pid = some (FAILURE, s) := by
          simp [srtf_continue, hh, hr, hhead]
        exact Or.inl (fail (e.symm.trans h) rfl)
      | some hd =>
        rw [srtf_continue_eq fuel s pid hdr stopped hd hh hr hhead] at h
        cases hscan : scan s.mem (fun x => decide (x.pid = pid)) fuel none (some hd) with
        | none => rw [hscan] at h; cases h
        | some x =>
          obtain ⟨previous, cur⟩ := x
          rw [hscan] at h
          cases cur with
          | none => exact Or.inl (fail h rfl)
          | some c =>
            simp only at h
            cases hst : hdr.ready_queue with
            | none => rw [hst] at h; cases h
            | some ready =>
              rw [hst] at h
              simp only at h
              cases henq : srtf_enqueue fuel
                  (setFlags (unlinkMem s.mem previous c) c
                    (Int.xor (unlinkMem s.mem previous c c).flags
                      (STATE_STOPPED + STATE_READY))) ready c with
              | none => rw [henq] at h; cases h
              | some y =>
                obtain ⟨mem3, q⟩ := y
                rw [henq] at h
                have e := Option.some.inj h
                exact Or.inr ⟨hdr, stopped, ready, hd, previous, c, mem3, q, rfl, hr, hst,
                  hhead, hscan, henq, (congrArg Prod.fst e).symm, (congrArg Prod.snd e).symm⟩

theorem srtf_reap_effect (fuel : Nat) (s : State) (pid r : Int) (s' : State)
    (h : srtf_reap fuel s pid = some (r, s')) :
    (r = FAILURE ∧ s' = s) ∨
    ∃ hdr defunct hd previous c,
      s.header = some hdr ∧ hdr.defunct_queue = some defunct ∧ defunct.head = some hd ∧
      (((s.mem hd).pid = pid ∧ previous = none ∧ c = hd) ∨
        scan s.mem (fun x => decide (x.pid = pid)) fuel none (some hd) =
          some (previous, some c)) ∧
      s' = { mem := unlinkMem s.mem previous c,
             header := some { ready_queue := hdr.ready_queue,
                              stopped_queue := hdr.stopped_queue,
                              defunct_queue := some (unlinkQueue s.mem defunct previous c) } } := by
  have fail : ∀ {x : Int × State}, some (FAILURE, s) = some x → x = (r, s') →
      r = FAILURE ∧ s' = s := by
    intro x h1 h2
    have := Option.some.inj h1
    rw [h2] at this
    exact ⟨(congrArg Prod.fst this).symm, (congrArg Prod.snd this).symm⟩
  cases hh : s.header with
  | none =>
    have e : srtf_reap fuel s pid = some (FAILURE, s) := by simp [srtf_reap, hh, FAILURE]
    exact Or.inl (fail (e.symm.trans h) rfl)
  | some hdr =>
    cases hr : hdr.defunct_queue with
    | none =>
      have e : srtf_reap fuel s pid = some (FAILURE, s) := by
        simp [srtf_reap, hh, hr, FAILURE]
      exact Or.inl (fail (e.symm.trans h) rfl)
    | some defunct =>
      cases hhead : defunct.head with
      | none =>
        have e : srtf_reap fuel s pid = some (FAILURE, s) := by
          simp [srtf_reap, hh, hr, hhead, FAILURE]
        exact Or.inl (fail (e.symm.trans h) rfl)
      | some hd =>
        simp only [srtf_reap, hh, hr, hhead] at h
        by_cases hp : (s.mem hd).pid = pid
        · rw [if_pos hp] at h
          have e := Option.some.inj h
          exact Or.inr ⟨hdr, defunct, hd, none, hd, rfl, hr, hhead, Or.inl ⟨hp, rfl, rfl⟩,
            (congrArg Prod.snd e).symm⟩
        · rw [if_neg hp] at h
          cases hscan : scan s.mem (fun x => decide (x.pid = pid)) fuel none (some hd) with
          | none => rw [hscan] at h; cases h
          | some x =>
            obtain ⟨previous, cur⟩ := x
            rw [hscan] at h
            cases cur with
            | none =>
              have h2 : some (FAILURE, s) = some (r, s') := by
                cases previous <;> exact h
              exact Or.inl (fail h2 rfl)
            | some c =>
              refine Or.inr ⟨hdr, defunct, hd, previous, c, rfl, hr, hhead, Or.inr hscan, ?_⟩
              cases previous with
              | none => exact (congrArg Prod.snd (Option.some.inj h)).symm
              | some b =>
                have e2 := (congrArg Prod.snd (Option.some.inj h)).symm
                simp only [unlinkMem, unlinkQueue, hhead]
                exact e2

theorem srtf_schedule_effect (fuel : Nat) (now : Int) (s : State) (r : Option Nat)
    (s' : State) (h : srtf_schedule fuel now s = some (r, s')) :
    (r = none ∧ s' = s) ∨
    ∃ hdr ready hd previous process,
      s.header = some hdr ∧ hdr.ready_queue = some ready ∧ ready.head = some hd ∧
      ((previous = none ∧ process = hd) ∨
        schedule_loop s.mem now fuel hd none hd = some (previous, process)) ∧
      r = some process ∧
      s' = { mem := setNext (unlinkMem s.mem previous process) process none,
             header := some { ready_queue := some (unlinkQueue s.mem ready previous process),
                              stopped_queue := hdr.stopped_queue,
                              defunct_queue := hdr.defunct_queue } } := by
  have fail : ∀ {x : Option Nat × State}, some (none, s) = some x → x = (r, s') →
      r = none ∧ s' = s := by
    intro x h1 h2
    have := Option.some.inj h1
    rw [h2] at this
    exact ⟨(congrArg Prod.fst this).symm, (congrArg Prod.snd this).symm⟩
  cases hh : s.header with
  | none =>
    have e : srtf_schedule fuel now s = some (none, s) := by simp [srtf_schedule, hh]
    exact Or.inl (fail (e.symm.trans h) rfl)
  | some hdr =>
    cases hr : hdr.ready_queue with
    | none =>
      have e : srtf_schedule fuel now s = some (none, s) := by simp [srtf_schedule, hh, hr]
      exact Or.inl (fail (e.symm.trans h) rfl)
    | some ready =>
      cases hhead : ready.head with
      | none =>
        have e : srtf_schedule fuel now s = some (none, s) := by
          simp [srtf_schedule, hh, hr, hhead]
        exact Or.inl (fail (e.symm.trans h) rfl)
      | some hd =>
        simp only [srtf_schedule, hh, hr, hhead] at h
        have key : ∀ previous process,
            (if now - (s.mem hd).time_last_run < TIME_STARVATION then
                schedule_loop s.mem now fuel hd none hd else some (none, hd)) =
              some (previous, process) →
            (previous = none ∧ process = hd) ∨
              schedule_loop s.mem now fuel hd none hd = some (previous, process) := by
          intro previous process hsel
          split_ifs at hsel with hst
          · exact Or.inr hsel
          · have e := Option.some.inj hsel
            exact Or.inl ⟨(congrArg Prod.fst e).symm, (congrArg Prod.snd e).symm⟩
        cases hsel : (if now - (s.mem hd).time_last_run < TIME_STARVATION then
            schedule_loop s.mem now fuel hd none hd else some (none, hd)) with
        | none => rw [hsel] at h; cases h
        | some x =>
          obtain ⟨previous, process⟩ := x
          rw [hsel] at h
          refine Or.inr ⟨hdr, ready, hd, previous, process, rfl, hr, hhead,
            key previous process hsel, ?_, ?_⟩
          · cases previous <;> exact (congrArg Prod.fst (Option.some.inj h)).symm
          · cases previous with
            | none => exact (congrArg Prod.snd (Option.some.inj h)).symm
            | some b =>
              have e2 := (congrArg Prod.snd (Option.some.inj h)).symm
              simp only [unlinkMem, unlinkQueue, hhead]
              exact e2

theorem srtf_add_effect (fuel : Nat) (s : State) (process : Option Nat) (r : Int)
    (s' : State) (h : srtf_add fuel s process = some (r, s')) :
    (r = FAILURE ∧ s' = s) ∨
    ∃ qr qs qd p mem1 mem2 q,
      s.header = some { ready_queue := some qr, stopped_queue := some qs,
                        defunct_queue := some qd } ∧
      process = some p ∧ r = SUCCESS ∧
      (mem1 = s.mem ∨
        ∃ m : Nat, m < 32 ∧ mem1 = setFlags s.mem p (Int.xor (s.mem p).flags (m : Int))) ∧
      ((srtf_enqueue fuel mem1 qr p = some (mem2, q) ∧
          s' = { mem := mem2,
                 header := some { ready_queue := some q, stopped_queue := some qs,
                                  defunct_queue := some qd } }) ∨
        (srtf_enqueue fuel mem1 qd p = some (mem2, q) ∧
          s' = { mem := mem2,
                 header := some { ready_queue := some qr, stopped_queue := some qs,
                                  defunct_queue := some q } })) := by
  have fail : ∀ {x : Int × State}, some (FAILURE, s) = some x → x = (r, s') →
      r = FAILURE ∧ s' = s := by
    intro x h1 h2
    have := Option.some.inj h1
    rw [h2] at this
    exact ⟨(congrArg Prod.fst this).symm, (congrArg Prod.snd this).symm⟩
  cases hh : s.header with
  | none =>
    have e : srtf_add fuel s process = some (FAILURE, s) := by simp [srtf_add, hh]
    exact Or.inl (fail (e.symm.trans h) rfl)
  | some hdr =>
    cases process with
    | none =>
      have e : srtf_add fuel s none = some (FAILURE, s) := by simp [srtf_add, hh]
      exact Or.inl (fail (e.symm.trans h) rfl)
    | some p =>
      obtain ⟨oqr, oqs, oqd⟩ := hdr
      cases oqr with
      | none =>
        have e : srtf_add fuel s (some p) = some (FAILURE, s) := by simp [srtf_add, hh]
        exact Or.inl (fail (e.symm.trans h) rfl)
      | some qr =>
        cases oqs with
        | none =>
          have e : srtf_add fuel s (some p) = some (FAILURE, s) := by simp [srtf_add, hh]
          exact Or.inl (fail (e.symm.trans h) rfl)
        | some qs =>
          cases oqd with
          | none =>
            have e : srtf_add fuel s (some p) = some (FAILURE, s) := by simp [srtf_add, hh]
            exact Or.inl (fail (e.symm.trans h) rfl)
          | some qd =>
            rw [srtf_add_unfold fuel s qr qs qd p hh] at h
            split_ifs at h
            · exact Or.inl (fail h rfl)
            ·
              cases he : srtf_enqueue fuel _ qr p with
              | none => rw [he] at h; cases h
              | some y =>
                obtain ⟨mem2, q⟩ := y
                rw [he] at h
                have e := Option.some.inj h
                exact Or.inr ⟨qr, qs, qd, p, _, mem2, q, rfl, rfl,
                  (congrArg Prod.fst e).symm, Or.inr ⟨3, by norm_num, rfl⟩,
                  Or.inl ⟨he, (congrArg Prod.snd e).symm⟩⟩
            ·
              cases he : srtf_enqueue fuel _ qr p with
              | none => rw [he] at h; cases h
              | some y =>
                obtain ⟨mem2, q⟩ := y
                rw [he] at h
                have e := Option.some.inj h
                exact Or.inr ⟨qr, qs, qd, p, _, mem2, q, rfl, rfl,
                  (congrArg Prod.fst e).symm, Or.inl rfl,
                  Or.inl ⟨he, (congrArg Prod.snd e).symm⟩⟩
            ·
              cases he : srtf_enqueue fuel _ qd p with
              | none => rw [he] at h; cases h
              | some y =>
                obtain ⟨mem2, q⟩ := y
                rw [he] at h
                have e := Option.some.inj h
                exact Or.inr ⟨qr, qs, qd, p, _, mem2, q, rfl, rfl,
                  (congrArg Prod.fst e).symm, Or.inr ⟨10, by norm_num, rfl⟩,
                  Or.inr ⟨he, (congrArg Prod.snd e).symm⟩⟩
            ·
              cases he : srtf_enqueue fuel _ qd p with
              | none => rw [he] at h; cases h
              | some y =>
                obtain ⟨mem2, q⟩ := y
                rw [he] at h
                have e := Option.some.inj h
                exact Or.inr ⟨qr, qs, qd, p, _, mem2, q, rfl, rfl,
                  (congrArg Prod.fst e).symm, Or.inl rfl,
                  Or.inr ⟨he, (congrArg Prod.snd e).symm⟩⟩
            · exact Or.inl (fail h rfl)

/-! ## Stores that differ in chain pointers and state bits only -/

theorem nat_xor_shiftRight (n m : Nat) (hm : m < 32) : (n ^^^ m) >>> 5 = n >>> 5 := by
  apply Nat.eq_of_testBit_eq
  intro j
  have h1 : m.testBit (5 + j) = false := by
    apply Nat.testBit_lt_two_pow
    calc m < 32 := hm
      _ = 2 ^ 5 := by norm_num
      _ ≤ 2 ^ (5 + j) := Nat.pow_le_pow_right (by norm_num) (by omega)
  rw [Nat.testBit_shiftRight, Nat.testBit_shiftRight, Nat.testBit_xor, h1]
  simp

theorem xor_shiftRight (f : Int) (m : Nat) (hm : m < 32) :
    (Int.xor f (m : Int)) >>> STATE_COUNT = f >>> STATE_COUNT := by
  cases f with
  | ofNat n =>
    show Int.ofNat ((n ^^^ m) >>> 5) = Int.ofNat (n >>> 5)
    rw [nat_xor_shiftRight n m hm]
  | negSucc n =>
    show Int.negSucc ((n ^^^ m) >>> 5) = Int.negSucc (n >>> 5)
    rw [nat_xor_shiftRight n m hm]

theorem keeps_refl (mem : Memory) : keeps mem mem := fun _ => ⟨rfl, rfl, rfl, rfl, rfl⟩

theorem keeps_trans (m1 m2 m3 : Memory) (h1 : keeps m1 m2) (h2 : keeps m2 m3) :
    keeps m1 m3 := fun a =>
  ⟨(h2 a).1.trans (h1 a).1, (h2 a).2.1.trans (h1 a).2.1, (h2 a).2.2.1.trans (h1 a).2.2.1,
    (h2 a).2.2.2.1.trans (h1 a).2.2.2.1, (h2 a).2.2.2.2.trans (h1 a).2.2.2.2⟩

theorem keeps_of_sameData (mem mem2 : Memory) (h : ∀ a, sameData (mem2 a) (mem a)) :
    keeps mem mem2 := fun a =>
  ⟨(h a).1, (h a).2.1, (h a).2.2.2.1, (h a).2.2.2.2, by rw [(h a).2.2.1]⟩

theorem keeps_setNext (mem : Memory) (a : Nat) (v : Option Nat) :
    keeps mem (setNext mem a v) :=
  keeps_of_sameData _ _ (fun b => setNext_sameData mem a b v)

theorem keeps_unlinkMem (mem : Memory) (previous : Option Nat) (c : Nat) :
    keeps mem (unlinkMem mem previous c) := by
  cases previous with
  | none => exact keeps_refl mem
  | some b => exact keeps_setNext mem b _

theorem keeps_setFlags_xor (mem : Memory) (a m : Nat) (hm : m < 32) :
    keeps mem (setFlags mem a (Int.xor (mem a).flags (m : Int))) := by
  intro b
  unfold setFlags
  by_cases h : b = a
  · subst h
    rw [if_pos rfl]
    exact ⟨rfl, rfl, rfl, rfl, xor_shiftRight _ m hm⟩
  · rw [if_neg h]
    exact ⟨rfl, rfl, rfl, rfl, rfl⟩

/-- Whatever the queue looks like, `srtf_enqueue` changes chain pointers only. -/
theorem srtf_enqueue_sameData (fuel : Nat) (mem : Memory) (q : queue_t) (x : Nat)
    (mem2 : Memory) (q2 : queue_t) (h : srtf_enqueue fuel mem q x = some (mem2, q2)) :
    ∀ a, sameData (mem2 a) (mem a) := by
  unfold srtf_enqueue at h
  cases hh : q.head with
  | none =>
    rw [hh] at h
    have e := Option.some.inj h
    have e1 : mem = mem2 := congrArg Prod.fst e
    subst e1
    exact fun a => ⟨rfl, rfl, rfl, rfl, rfl⟩
  | some hd =>
    rw [hh] at h
    simp only at h
    cases hs : scan mem (fun c => decide (c.pid ≥ (mem x).pid)) fuel none (some hd) with
    | none => rw [hs] at h; cases h
    | some y =>
      obtain ⟨previous, cur⟩ := y
      rw [hs] at h
      cases previous with
      | none =>
        have e1 : setNext mem x cur = mem2 := congrArg Prod.fst (Option.some.inj h)
        subst e1
        exact fun a => setNext_sameData _ _ _ _
      | some b =>
        have e1 : setNext (setNext mem b (some x)) x cur = mem2 :=
          congrArg Prod.fst (Option.some.inj h)
        subst e1
        intro a
        have k1 := setNext_sameData (setNext mem b (some x)) x a cur
        have k2 := setNext_sameData mem b a (some x)
        unfold sameData at *
        exact ⟨k1.1.trans k2.1, k1.2.1.trans k2.2.1, k1.2.2.1.trans k2.2.2.1,
          k1.2.2.2.1.trans k2.2.2.2.1, k1.2.2.2.2.trans k2.2.2.2.2⟩

/-! ## Searching a chain by pid -/

/-- The loop `scan` on a chain without a node satisfying `test` ends with `current = NULL`. -/
theorem scan_absent (mem : Memory) (test : process_t → Bool) (l : List Nat)
    (hno : ∀ a ∈ l, test (mem a) = false) (fuel : Nat) (prev cur : Option Nat)
    (hc : chain mem cur l) (hf : l.length < fuel) :
    ∃ previous, scan mem test fuel prev cur = some (previous, none) := by
  obtain ⟨pre, post, h1, -, h3, h4⟩ := scan_split mem test l
  have hpost : post.head? = none := by
    cases hp : post.head? with
    | none => rfl
    | some c =>
      have hc1 := h3 c hp
      have hc2 : c ∈ l := by
        rw [h1]
        exact List.mem_append_right _ (List.mem_of_mem_head? hp)
      rw [hno c hc2] at hc1
      cases hc1
  exact ⟨_, by rw [h4 fuel prev cur hc hf, hpost]⟩

/-- The loop `scan` on a chain with a node satisfying `test` stops at the first such
node. -/
theorem scan_found (mem : Memory) (test : process_t → Bool) (l : List Nat)
    (hex : ∃ a ∈ l, test (mem a) = true) :
    ∃ pre c post, l = pre ++ c :: post ∧ (∀ a ∈ pre, test (mem a) = false) ∧
      test (mem c) = true ∧
      ∀ (fuel : Nat) (prev cur : Option Nat), chain mem cur l → l.length < fuel →
        scan mem test fuel prev cur = some (lastOr prev pre, some c) := by
  obtain ⟨pre, post, h1, h2, h3, h4⟩ := scan_split mem test l
  cases post with
  | nil =>
    obtain ⟨a, ha, hta⟩ := hex
    rw [h1, List.append_nil] at ha
    rw [h2 a ha] at hta
    cases hta
  | cons c post => exact ⟨pre, c, post, h1, h2, h3 c rfl, h4⟩

/-- `srtf_reap` for a pid carried by no node of the defunct chain fails and returns the
state it was given. -/
theorem srtf_reap_absent (fuel : Nat) (s : State) (pid : Int) (qd : queue_t) (ld : List Nat)
    (hq : defunctQ s = some qd) (hc : chain s.mem qd.head ld)
    (hno : ∀ a ∈ ld, (s.mem a).pid ≠ pid) (hf : ld.length < fuel) :
    srtf_reap fuel s pid = some (FAILURE, s) := by
  unfold defunctQ at hq
  cases hhd : s.header with
  | none => simp [hhd] at hq
  | some hdr =>
    have hq2 : hdr.defunct_queue = some qd := by simpa [hhd] using hq
    cases ld with
    | nil =>
      have hh : qd.head = none := hc
      simp [srtf_reap, hhd, hq2, hh, FAILURE]
    | cons h t =>
      have hh : qd.head = some h := hc.1
      rw [hh] at hc
      have hne : ¬ (s.mem h).pid = pid := hno h (List.mem_cons_self _ _)
      obtain ⟨previous, hscan⟩ := scan_absent s.mem (fun x => decide (x.pid = pid)) (h :: t)
        (fun a ha => by simpa using hno a ha) fuel none (some h) hc hf
      simp only [srtf_reap, hhd, hq2, hh, if_neg hne, hscan]
      cases previous <;> rfl

/-! ## Chain pointers written by a call

The statements of this section do not assume that the queues are well formed.  They show
that each call of the engine leaves the chain pointers between the nodes of `used`
non-decreasing in pid, as long as the set `used` itself is kept. -/

theorem scan_result (mem : Memory) (test : process_t → Bool) (used : List Nat)
    (hm : monotone mem used) :
    ∀ (fuel : Nat) (prev cur : Option Nat) (r : Option Nat × Option Nat),
      scan mem test fuel prev cur = some r → (∀ c, cur = some c → c ∈ used) →
      (r = (prev, cur) ∨
        ∃ b, r.1 = some b ∧ b ∈ used ∧ test (mem b) = false ∧ (mem b).next = r.2) ∧
      (∀ c, r.2 = some c → c ∈ used ∧ test (mem c) = true) := by
  intro fuel
  induction fuel with
  | zero => intro prev cur r h; simp [scan] at h
  | succ fuel ih =>
    intro prev cur r h hcur
    cases cur with
    | none =>
      have e : (prev, none) = r := Option.some.inj h
      subst e
      exact ⟨Or.inl rfl, fun c hc => by cases hc⟩
    | some c =>
      have hc : c ∈ used := hcur c rfl
      by_cases ht : test (mem c) = true
      · have e : (prev, some c) = r := by
          have : scan mem test (fuel + 1) prev (some c) = some (prev, some c) := by
            simp [scan, ht]
          rw [this] at h
          exact Option.some.inj h
        subst e
        refine ⟨Or.inl rfl, fun c2 hc2 => ?_⟩
        have : c = c2 := Option.some.inj hc2
        subst this
        exact ⟨hc, ht⟩
      · have hstep : scan mem test (fuel + 1) prev (some c) =
            scan mem test fuel (some c) (mem c).next := by
          simp [scan, ht]
        rw [hstep] at h
        have hnext : ∀ y, (mem c).next = some y → y ∈ used := fun y hy => (hm c hc y hy).1
        obtain ⟨h1, h2⟩ := ih (some c) (mem c).next r h hnext
        refine ⟨Or.inr ?_, h2⟩
        rcases h1 with e | ⟨b, hb⟩
        · subst e
          exact ⟨c, rfl, hc, by simpa using ht, rfl⟩
        · exact ⟨b, hb⟩

theorem schedule_loop_result (mem : Memory) (now : Int) (used : List Nat)
    (hm : monotone mem used) :
    ∀ (fuel current : Nat) (previous : Option Nat) (process : Nat) (r : Option Nat × Nat),
      schedule_loop mem now fuel current previous process = some r →
      current ∈ used → process ∈ used →
      (∀ b, previous = some b → b ∈ used ∧ (mem b).next = some process) →
      r.2 ∈ used ∧ ∀ b, r.1 = some b → b ∈ used ∧ (mem b).next = some r.2 := by
  intro fuel
  induction fuel with
  | zero => intro current previous process r h; simp [schedule_loop] at h
  | succ fuel ih =>
    intro current previous process r h hcur hproc hprev
    unfold schedule_loop at h
    cases hn : (mem current).next with
    | none =>
      rw [hn] at h
      have e : (previous, process) = r := Option.some.inj h
      subst e
      exact ⟨hproc, hprev⟩
    | some n =>
      rw [hn] at h
      have hnu : n ∈ used := (hm current hcur n hn).1
      simp only at h
      split_ifs at h
      · have e : (some current, n) = r := Option.some.inj h
        subst e
        refine ⟨hnu, fun b hb => ?_⟩
        have : current = b := Option.some.inj hb
        subst this
        exact ⟨hcur, hn⟩
      · refine ih n (some current) n r h hnu hnu (fun b hb => ?_)
        have : current = b := Option.some.inj hb
        subst this
        exact ⟨hcur, hn⟩
      · exact ih n previous process r h hnu hproc hprev

theorem setNext_pid (mem : Memory) (a b : Nat) (v : Option Nat) :
    (setNext mem a v b).pid = (mem b).pid :=
  (setNext_sameData mem a b v).2.1

theorem monotone_setNext (mem : Memory) (used : List Nat) (x : Nat) (v : Option Nat)
    (hm : monotone mem used)
    (hv : ∀ y, v = some y → y ∈ used ∧ (mem x).pid ≤ (mem y).pid) :
    monotone (setNext mem x v) used := by
  intro a ha y hy
  rw [setNext_pid, setNext_pid]
  by_cases e : a = x
  · subst e
    rw [setNext_next_self] at hy
    exact hv y hy
  · rw [setNext_other _ _ _ _ e] at hy
    exact hm a ha y hy

theorem monotone_congr (mem mem2 : Memory) (used : List Nat) (hm : monotone mem used)
    (h : ∀ a, (mem2 a).next = (mem a).next ∧ (mem2 a).pid = (mem a).pid) :
    monotone mem2 used := by
  intro a ha y hy
  rw [(h a).1] at hy
  rw [(h a).2, (h y).2]
  exact hm a ha y hy

theorem monotone_setFlags (mem : Memory) (used : List Nat) (a : Nat) (v : Int)
    (hm : monotone mem used) : monotone (setFlags mem a v) used :=
  monotone_congr mem _ used hm (fun b => ⟨setFlags_next mem a b v, setFlags_pid mem a b v⟩)

theorem monotone_unlinkMem (mem : Memory) (used : List Nat) (previous : Option Nat) (c : Nat)
    (hm : monotone mem used) (hc : c ∈ used)
    (hp : ∀ b, previous = some b → b ∈ used ∧ (mem b).next = some c) :
    monotone (unlinkMem mem previous c) used := by
  cases previous with
  | none => exact hm
  | some b =>
    obtain ⟨hb, hbn⟩ := hp b rfl
    apply monotone_setNext mem used b _ hm
    intro y hy
    obtain ⟨hy1, hy2⟩ := hm c hc y hy
    exact ⟨hy1, le_trans (hm b hb c hbn).2 hy2⟩

theorem headUsed_unlinkQueue (mem : Memory) (used : List Nat) (q : queue_t)
    (previous : Option Nat) (c : Nat) (hm : monotone mem used) (hc : c ∈ used)
    (hq : headUsed (some q) used) :
    headUsed (some (unlinkQueue mem q previous c)) used := by
  intro x h hx hh
  have e : unlinkQueue mem q previous c = x := Option.some.inj hx
  subst e
  cases previous with
  | none => exact (hm c hc h hh).1
  | some b => exact hq q h rfl hh

/-- Whatever the queue looks like, `srtf_enqueue` of a node of `used` keeps the chain
pointers between the nodes of `used` non-decreasing in pid, and the head in `used`. -/
theorem srtf_enqueue_monotone (fuel : Nat) (mem : Memory) (q : queue_t) (x : Nat)
    (used : List Nat) (mem2 : Memory) (q2 : queue_t) (hm : monotone mem used)
    (hq : headUsed (some q) used) (hx : x ∈ used)
    (h : srtf_enqueue fuel mem q x = some (mem2, q2)) :
    monotone mem2 used ∧ headUsed (some q2) used := by
  unfold srtf_enqueue at h
  cases hh : q.head with
  | none =>
    rw [hh] at h
    have e := Option.some.inj h
    have e1 : mem = mem2 := congrArg Prod.fst e
    have e2 : ({ head := some x, count := q.count + 1 } : queue_t) = q2 := congrArg Prod.snd e
    subst e1
    subst e2
    refine ⟨hm, fun y h hy hh2 => ?_⟩
    have e3 := Option.some.inj hy
    subst e3
    have : x = h := Option.some.inj hh2
    subst this
    exact hx
  | some hd =>
    rw [hh] at h
    simp only at h
    have hhd : hd ∈ used := hq q hd rfl hh
    cases hs : scan mem (fun c => decide (c.pid ≥ (mem x).pid)) fuel none (some hd) with
    | none => rw [hs] at h; cases h
    | some y =>
      obtain ⟨previous, cur⟩ := y
      rw [hs] at h
      obtain ⟨r1, r2⟩ := scan_result mem _ used hm fuel none (some hd) (previous, cur) hs
        (fun c hc => by
          have : hd = c := Option.some.inj hc
          subst this
          exact hhd)
      have hcur : ∀ y, cur = some y → y ∈ used ∧ (mem x).pid ≤ (mem y).pid := by
        intro y hy
        obtain ⟨k1, k2⟩ := r2 y hy
        exact ⟨k1, by simpa using k2⟩
      cases previous with
      | none =>
        have e := Option.some.inj h
        have e1 : setNext mem x cur = mem2 := congrArg Prod.fst e
        have e2 : ({ head := some x, count := q.count + 1 } : queue_t) = q2 :=
          congrArg Prod.snd e
        subst e1
        subst e2
        refine ⟨monotone_setNext mem used x cur hm hcur, fun y h hy hh2 => ?_⟩
        have e3 := Option.some.inj hy
        subst e3
        have : x = h := Option.some.inj hh2
        subst this
        exact hx
      | some b =>
        have e := Option.some.inj h
        have e1 : setNext (setNext mem b (some x)) x cur = mem2 := congrArg Prod.fst e
        have e2 : ({ head := some hd, count := q.count + 1 } : queue_t) = q2 :=
          congrArg Prod.snd e
        subst e1
        subst e2
        have hb : b ∈ used ∧ (mem b).pid ≤ (mem x).pid := by
          rcases r1 with e | ⟨b2, k1, k2, k3, -⟩
          · cases (congrArg Prod.fst e)
          · have : b = b2 := Option.some.inj k1
            subst this
            have k4 : ¬ (mem b).pid ≥ (mem x).pid := by simpa using k3
            exact ⟨k2, le_of_lt (not_le.1 k4)⟩
        have m1 : monotone (setNext mem b (some x)) used := by
          apply monotone_setNext mem used b _ hm
          intro y hy
          have : x = y := Option.some.inj hy
          subst this
          exact ⟨hx, hb.2⟩
        refine ⟨monotone_setNext _ used x cur m1 (fun y hy => ?_), fun y h hy hh2 => ?_⟩
        · rw [setNext_pid, setNext_pid]
          exact hcur y hy
        · have e3 := Option.some.inj hy
          subst e3
          have : hd = h := Option.some.inj hh2
          subst this
          exact hhd

theorem inv_of_fail (s s' : State) (used : List Nat) (hinv : Inv s used) (e : s' = s) :
    Inv s' used := by
  rw [e]; exact hinv

theorem scan_from_head (mem : Memory) (test : process_t → Bool) (used : List Nat)
    (hm : monotone mem used) (fuel hd : Nat) (previous : Option Nat) (c : Nat)
    (hhd : hd ∈ used) (hs : scan mem test fuel none (some hd) = some (previous, some c)) :
    c ∈ used ∧ ∀ b, previous = some b → b ∈ used ∧ (mem b).next = some c := by
  obtain ⟨r1, r2⟩ := scan_result mem test used hm fuel none (some hd) (previous, some c) hs
    (fun x hx => by
      have : hd = x := Option.some.inj hx
      subst this
      exact hhd)
  refine ⟨(r2 c rfl).1, fun b hb => ?_⟩
  rcases r1 with e | ⟨b2, k1, k2, -, k4⟩
  · have : previous = none := congrArg Prod.fst e
    rw [this] at hb
    cases hb
  · have e1 : previous = some b2 := k1
    rw [e1] at hb
    have : b2 = b := Option.some.inj hb
    subst this
    exact ⟨k2, k4⟩

theorem srtf_stop_inv (fuel : Nat) (s : State) (pid r : Int) (s' : State) (used : List Nat)
    (hinv : Inv s used) (h : srtf_stop fuel s pid = some (r, s')) : Inv s' used := by
  obtain ⟨hm, i1, i2, i3⟩ := hinv
  rcases srtf_stop_effect fuel s pid r s' h with ⟨-, e⟩ |
    ⟨hdr, ready, stopped, hd, previous, c, mem3, q, hh, hr, hst, hhead, hscan, he, -, e⟩
  · exact inv_of_fail s s' used ⟨hm, i1, i2, i3⟩ e
  · have hrq : readyQ s = some ready := by simp [readyQ, hh, hr]
    have hsq : stoppedQ s = some stopped := by simp [stoppedQ, hh, hst]
    have hdq : defunctQ s = hdr.defunct_queue := by simp [defunctQ, hh]
    have hhd : hd ∈ used := i1 ready hd hrq hhead
    obtain ⟨hc, hp⟩ := scan_from_head s.mem _ used hm fuel hd previous c hhd hscan
    have m1 := monotone_unlinkMem s.mem used previous c hm hc hp
    have m2 := monotone_setFlags _ used c
      (Int.xor (unlinkMem s.mem previous c c).flags (STATE_READY + STATE_STOPPED)) m1
    obtain ⟨m3, q3⟩ := srtf_enqueue_monotone fuel _ stopped c used mem3 q m2
      (by rw [← hsq]; exact i2) hc he
    rw [e]
    refine ⟨m3, ?_, q3, ?_⟩
    · exact headUsed_unlinkQueue s.mem used ready previous c hm hc (by rw [← hrq]; exact i1)
    · show headUsed hdr.defunct_queue used
      rw [← hdq]; exact i3

theorem srtf_continue_inv (fuel : Nat) (s : State) (pid r : Int) (s' : State)
    (used : List Nat) (hinv : Inv s used) (h : srtf_continue fuel s pid = some (r, s')) :
    Inv s' used := by
  obtain ⟨hm, i1, i2, i3⟩ := hinv
  rcases srtf_continue_effect fuel s pid r s' h with ⟨-, e⟩ |
    ⟨hdr, stopped, ready, hd, previous, c, mem3, q, hh, hr, hst, hhead, hscan, he, -, e⟩
  · exact inv_of_fail s s' used ⟨hm, i1, i2, i3⟩ e
  · have hsq : stoppedQ s = some stopped := by simp [stoppedQ, hh, hr]
    have hrq : readyQ s = some ready := by simp [readyQ, hh, hst]
    have hdq : defunctQ s = hdr.defunct_queue := by simp [defunctQ, hh]
    have hhd : hd ∈ used := i2 stopped hd hsq hhead
    obtain ⟨hc, hp⟩ := scan_from_head s.mem _ used hm fuel hd previous c hhd hscan
    have m1 := monotone_unlinkMem s.mem used previous c hm hc hp
    have m2 := monotone_setFlags _ used c
      (Int.xor (unlinkMem s.mem previous c c).flags (STATE_STOPPED + STATE_READY)) m1
    obtain ⟨m3, q3⟩ := srtf_enqueue_monotone fuel _ ready c used mem3 q m2
      (by rw [← hrq]; exact i1) hc he
    rw [e]
    refine ⟨m3, q3, ?_, ?_⟩
    · exact headUsed_unlinkQueue s.mem used stopped previous c hm hc (by rw [← hsq]; exact i2)
    · show headUsed hdr.defunct_queue used
      rw [← hdq]; exact i3

theorem srtf_reap_inv (fuel : Nat) (s : State) (pid r : Int) (s' : State) (used : List Nat)
    (hinv : Inv s used) (h : srtf_reap fuel s pid = some (r, s')) : Inv s' used := by
  obtain ⟨hm, i1, i2, i3⟩ := hinv
  rcases srtf_reap_effect fuel s pid r s' h with ⟨-, e⟩ |
    ⟨hdr, defunct, hd, previous, c, hh, hr, hhead, hcase, e⟩
  · exact inv_of_fail s s' used ⟨hm, i1, i2, i3⟩ e
  · have hdq : defunctQ s = some defunct := by simp [defunctQ, hh, hr]
    have hrq : readyQ s = hdr.ready_queue := by simp [readyQ, hh]
    have hsq : stoppedQ s = hdr.stopped_queue := by simp [stoppedQ, hh]
    have hhd : hd ∈ used := i3 defunct hd hdq hhead
    have hcp : c ∈ used ∧ ∀ b, previous = some b → b ∈ used ∧ (s.mem b).next = some c := by
      rcases hcase with ⟨-, e1, e2⟩ | hscan
      · rw [e1, e2]
        exact ⟨hhd, fun b hb => by cases hb⟩
      · exact scan_from_head s.mem _ used hm fuel hd previous c hhd hscan
    rw [e]
    refine ⟨monotone_unlinkMem s.mem used previous c hm hcp.1 hcp.2, ?_, ?_, ?_⟩
    · show headUsed hdr.ready_queue used
      rw [← hrq]; exact i1
    · show headUsed hdr.stopped_queue used
      rw [← hsq]; exact i2
    · exact headUsed_unlinkQueue s.mem used defunct previous c hm hcp.1
        (by rw [← hdq]; exact i3)

theorem srtf_schedule_inv (fuel : Nat) (now : Int) (s : State) (r : Option Nat) (s' : State)
    (used : List Nat) (hinv : Inv s used) (h : srtf_schedule fuel now s = some (r, s')) :
    Inv s' used := by
  obtain ⟨hm, i1, i2, i3⟩ := hinv
  rcases srtf_schedule_effect fuel now s r s' h with ⟨-, e⟩ |
    ⟨hdr, ready, hd, previous, process, hh, hr, hhead, hcase, -, e⟩
  · exact inv_of_fail s s' used ⟨hm, i1, i2, i3⟩ e
  · have hrq : readyQ s = some ready := by simp [readyQ, hh, hr]
    have hsq : stoppedQ s = hdr.stopped_queue := by simp [stoppedQ, hh]
    have hdq : defunctQ s = hdr.defunct_queue := by simp [defunctQ, hh]
    have hhd : hd ∈ used := i1 ready hd hrq hhead
    have hcp : process ∈ used ∧
        ∀ b, previous = some b → b ∈ used ∧ (s.mem b).next = some process := by
      rcases hcase with ⟨e1, e2⟩ | hloop
      · rw [e1, e2]
        exact ⟨hhd, fun b hb => by cases hb⟩
      · exact schedule_loop_result s.mem now used hm fuel hd none hd (previous, process) hloop
          hhd hhd (fun b hb => by cases hb)
    rw [e]
    refine ⟨?_, ?_, ?_, ?_⟩
    · apply monotone_setNext _ used process none
        (monotone_unlinkMem s.mem used previous process hm hcp.1 hcp.2)
      intro y hy
      cases hy
    · exact headUsed_unlinkQueue s.mem used ready previous process hm hcp.1
        (by rw [← hrq]; exact i1)
    · show headUsed hdr.stopped_queue used
      rw [← hsq]; exact i2
    · show headUsed hdr.defunct_queue used
      rw [← hdq]; exact i3

theorem srtf_add_inv (fuel : Nat) (s : State) (p : Nat) (r : Int) (s' : State)
    (used : List Nat) (hinv : Inv s used) (hp : p ∈ used)
    (h : srtf_add fuel s (some p) = some (r, s')) : Inv s' used := by
  obtain ⟨hm, i1, i2, i3⟩ := hinv
  rcases srtf_add_effect fuel s (some p) r s' h with ⟨-, e⟩ |
    ⟨qr, qs, qd, p2, mem1, mem2, q, hh, hp2, -, hm1, he⟩
  · exact inv_of_fail s s' used ⟨hm, i1, i2, i3⟩ e
  · have e0 : p = p2 := Option.some.inj hp2
    subst e0
    have hrq : readyQ s = some qr := by simp [readyQ, hh]
    have hsq : stoppedQ s = some qs := by simp [stoppedQ, hh]
    have hdq : defunctQ s = some qd := by simp [defunctQ, hh]
    have m1 : monotone mem1 used := by
      rcases hm1 with e | ⟨m, -, e⟩
      · rw [e]; exact hm
      · rw [e]; exact monotone_setFlags _ used p _ hm
    rcases he with ⟨he, e⟩ | ⟨he, e⟩
    · obtain ⟨m3, q3⟩ := srtf_enqueue_monotone fuel mem1 qr p used mem2 q m1
        (by rw [← hrq]; exact i1) hp he
      rw [e]
      exact ⟨m3, q3, by rw [← hsq]; exact i2, by rw [← hdq]; exact i3⟩
    · obtain ⟨m3, q3⟩ := srtf_enqueue_monotone fuel mem1 qd p used mem2 q m1
        (by rw [← hdq]; exact i3) hp he
      rw [e]
      exact ⟨m3, by rw [← hrq]; exact i1, by rw [← hsq]; exact i2, q3⟩

theorem walk_lower_bound (mem : Memory) (used : List Nat) (hm : monotone mem used) (lo : Int) :
    ∀ (n : Nat) (p : Option Nat), (∀ h, p = some h → h ∈ used ∧ lo ≤ (mem h).pid) →
      ∀ b ∈ walk mem n p, b ∈ used ∧ lo ≤ (mem b).pid := by
  intro n
  induction n with
  | zero => intro p _ b hb; simp [walk] at hb
  | succ n ih =>
    intro p hp b hb
    cases p with
    | none => simp [walk] at hb
    | some a =>
      obtain ⟨ha, hlo⟩ := hp a rfl
      have hb2 : b ∈ a :: walk mem n (mem a).next := hb
      rcases List.mem_cons.1 hb2 with e | hb3
      · rw [e]; exact ⟨ha, hlo⟩
      · refine ih (mem a).next (fun y hy => ?_) b hb3
        obtain ⟨k1, k2⟩ := hm a ha y hy
        exact ⟨k1, le_trans hlo k2⟩

theorem walk_sorted (mem : Memory) (used : List Nat) (hm : monotone mem used) :
    ∀ (n : Nat) (p : Option Nat), (∀ h, p = some h → h ∈ used) →
      sortedByPid mem (walk mem n p) := by
  intro n
  induction n with
  | zero => intro p _; exact List.Pairwise.nil
  | succ n ih =>
    intro p hp
    cases p with
    | none => exact List.Pairwise.nil
    | some a =>
      have ha := hp a rfl
      show List.Pairwise _ (a :: walk mem n (mem a).next)
      refine List.pairwise_cons.2 ⟨fun b hb => ?_, ih _ (fun y hy => (hm a ha y hy).1)⟩
      exact (walk_lower_bound mem used hm (mem a).pid n (mem a).next
        (fun y hy => hm a ha y hy) b hb).2

/-! ## The node freed by `srtf_reap` -/

theorem scan_stops (mem : Memory) (test : process_t → Bool) :
    ∀ (fuel : Nat) (prev cur previous : Option Nat) (c : Nat),
      scan mem test fuel prev cur = some (previous, some c) → test (mem c) = true := by
  intro fuel
  induction fuel with
  | zero => intro prev cur previous c h; simp [scan] at h
  | succ fuel ih =>
    intro prev cur previous c h
    cases cur with
    | none => simp [scan] at h
    | some x =>
      by_cases ht : test (mem x) = true
      · have e : scan mem test (fuel + 1) prev (some x) = some (prev, some x) := by
          simp [scan, ht]
        rw [e] at h
        have e2 := congrArg Prod.snd (Option.some.inj h)
        have : x = c := Option.some.inj e2
        rw [← this]; exact ht
      · have e : scan mem test (fuel + 1) prev (some x) =
            scan mem test fuel (some x) (mem x).next := by
          simp [scan, ht]
        rw [e] at h
        exact ih _ _ _ _ h

/-- The node named by `srtf_reap_freed` carries the pid, and `srtf_reap` returns with that
node unlinked from the defunct queue. -/
theorem srtf_reap_freed_unlinked (fuel : Nat) (s : State) (pid : Int) (c : Nat)
    (h : srtf_reap_freed fuel s pid = some c) :
    (s.mem c).pid = pid ∧
    ∃ r hdr defunct previous, s.header = some hdr ∧ hdr.defunct_queue = some defunct ∧
      srtf_reap fuel s pid =
        some (r, { mem := unlinkMem s.mem previous c,
                   header := some { ready_queue := hdr.ready_queue,
                                    stopped_queue := hdr.stopped_queue,
                                    defunct_queue :=
                                      some (unlinkQueue s.mem defunct previous c) } }) := by
  cases hh : s.header with
  | none => simp [srtf_reap_freed, hh] at h
  | some hdr =>
    cases hr : hdr.defunct_queue with
    | none => simp [srtf_reap_freed, hh, hr] at h
    | some defunct =>
      cases hhead : defunct.head with
      | none => simp [srtf_reap_freed, hh, hr, hhead] at h
      | some hd =>
        simp only [srtf_reap_freed, hh, hr, hhead] at h
        by_cases hp : (s.mem hd).pid = pid
        · rw [if_pos hp] at h
          have e : hd = c := Option.some.inj h
          subst e
          refine ⟨hp, 0, hdr, defunct, none, rfl, hr, ?_⟩
          simp only [srtf_reap, hh, hr, hhead, if_pos hp]
          rfl
        · rw [if_neg hp] at h
          cases hscan : scan s.mem (fun x => decide (x.pid = pid)) fuel none (some hd) with
          | none => rw [hscan] at h; cases h
          | some x =>
            obtain ⟨previous, cur⟩ := x
            rw [hscan] at h
            cases cur with
            | none => cases h
            | some c2 =>
              have e : c2 = c := Option.some.inj h
              subst e
              have ht := scan_stops s.mem _ fuel none (some hd) previous c2 hscan
              refine ⟨by simpa using ht, (s.mem c2).flags >>> STATE_COUNT, hdr, defunct,
                previous, rfl, hr, ?_⟩
              simp only [srtf_reap, hh, hr, hhead, if_neg hp, hscan]
              cases previous with
              | none => rfl
              | some b => simp only [unlinkMem, unlinkQueue, hhead]

/-! ## Claims -/

/-- C1: when no ready process is starved at clock value `now`, `srtf_schedule` returns the
process with the least `time_remaining` of the whole ready chain, and the earliest one in
chain order among those with that least value. -/
theorem schedule_picks_first_minimum (fuel : Nat) (now : Int) (s : State) (qr : queue_t)
    (lr : List Nat) (hq : readyQ s = some qr) (hr : chain s.mem qr.head lr) (hne : lr ≠ [])
    (hns : ∀ a ∈ lr, now - (s.mem a).time_last_run < TIME_STARVATION)
    (hf : lr.length < fuel) :
    ∃ p s', srtf_schedule fuel now s = some (some p, s') ∧ firstMin s.mem lr p := by
  cases lr with
  | nil => exact absurd rfl hne
  | cons h t =>
    obtain ⟨s', hs'⟩ := srtf_schedule_returns fuel now s qr h t hq hr hf
    refine ⟨_, s', hs', ?_⟩
    unfold selection
    rw [if_pos (hns h (List.mem_cons_self _ _))]
    exact pick_firstMin s.mem now t [h] h none h
      (fun a ha => hns a (List.mem_cons_of_mem _ ha)) ⟨[], [], rfl, by simp, by simp⟩

/-- C1 at the state `exReady3` and clock value 12: nobody is starved and a process is
returned that is the first minimum of the chain `[1, 2, 3]`. -/
theorem schedule_picks_first_minimum_witness :
    (readyQ exReady3 = some { head := some 1, count := 3 } ∧
      chain exReady3.mem (some 1) [1, 2, 3] ∧
      ∀ a ∈ [1, 2, 3], (12 : Int) - (exReady3.mem a).time_last_run < TIME_STARVATION) ∧
    ∃ p s', srtf_schedule 4 12 exReady3 = some (some p, s') ∧
      firstMin exReady3.mem [1, 2, 3] p :=
  ⟨⟨rfl, by decide, by decide⟩,
    schedule_picks_first_minimum 4 12 exReady3 { head := some 1, count := 3 } [1, 2, 3]
      rfl (by decide) (by decide) (by decide) (by decide)⟩

/-- C2: when the head of the ready queue is starved at clock value `now`, `srtf_schedule`
returns the head, whatever the other ready processes look like. -/
theorem schedule_starved_head (fuel : Nat) (now : Int) (s : State) (qr : queue_t) (h : Nat)
    (hq : readyQ s = some qr) (hh : qr.head = some h)
    (hst : now - (s.mem h).time_last_run ≥ TIME_STARVATION) :
    ∃ s', srtf_schedule fuel now s = some (some h, s') := by
  unfold readyQ at hq
  cases hhd : s.header with
  | none => simp [hhd] at hq
  | some hd =>
    have hq2 : hd.ready_queue = some qr := by simpa [hhd] using hq
    have hn : ¬ (now - (s.mem h).time_last_run < TIME_STARVATION) := not_lt.2 hst
    exact ⟨_, by simp only [srtf_schedule, hhd, hq2, hh, if_neg hn]; rfl⟩

/-- C2 at the state `exStarved` and clock value 10: the head (pid 1) has waited 10 units
and is returned although pid 2 has less remaining time. -/
theorem schedule_starved_head_witness :
    ((10 : Int) - (exStarved.mem 1).time_last_run ≥ TIME_STARVATION ∧
      (exStarved.mem 2).time_remaining < (exStarved.mem 1).time_remaining) ∧
    ∃ s', srtf_schedule 3 10 exStarved = some (some 1, s') :=
  ⟨by decide,
    schedule_starved_head 3 10 exStarved { head := some 1, count := 2 } 1 rfl rfl (by decide)⟩

/-- C4 (failing input): in `exDefunct` the defunct queue holds pid 7 at its head with exit
code 3 in the flag bits above the state field; `srtf_reap` for pid 7 returns 0, not 3,
whereas for pid 9, which is not at the head, it returns the exit code 5. -/
theorem reap_head_returns_zero :
    defunctQ exDefunct = some { head := some 1, count := 2 } ∧
    chain exDefunct.mem (some 1) [1, 2] ∧
    (exDefunct.mem 1).pid = 7 ∧ (exDefunct.mem 1).flags >>> STATE_COUNT = 3 ∧
    (srtf_reap 3 exDefunct 7).map Prod.fst = some 0 ∧
    (srtf_reap 3 exDefunct 9).map Prod.fst = some 5 := by
  decide

/-- C5: when no process on the defunct chain has the given pid (the chain may be empty,
the header or the defunct queue may be `NULL`), `srtf_reap` returns -1 and the state,
header and store, is the one it started from. -/
theorem reap_unknown_pid (fuel : Nat) (s : State) (pid : Int) (ld : List Nat)
    (hd : ∀ qd, defunctQ s = some qd → chain s.mem qd.head ld)
    (hno : ∀ a ∈ ld, (s.mem a).pid ≠ pid) (hf : ld.length < fuel) :
    srtf_reap fuel s pid = some (FAILURE, s) := by
  cases hhd : s.header with
  | none => simp [srtf_reap, hhd, FAILURE]
  | some hdr =>
    cases hq : hdr.defunct_queue with
    | none => simp [srtf_reap, hhd, hq, FAILURE]
    | some qd =>
      have hc := hd qd (by simp [defunctQ, hhd, hq])
      cases hh : qd.head with
      | none => simp [srtf_reap, hhd, hq, hh, FAILURE]
      | some h =>
        rw [hh] at hc
        have hne : ¬ (s.mem h).pid = pid := by
          apply hno
          cases ld with
          | nil => exact absurd hc (by simp [chain, lseg])
          | cons a l =>
            have : some h = some a := hc.1
            simp at this
            simp [this]
        obtain ⟨pre, post, h1, -, h3, h4⟩ :=
          scan_split s.mem (fun c => decide (c.pid = pid)) ld
        have hpost : post.head? = none := by
          cases hp : post.head? with
          | none => rfl
          | some c =>
            have hc1 : (s.mem c).pid = pid := by simpa using h3 c hp
            have hc2 : c ∈ ld := by
              rw [h1]
              exact List.mem_append_right _ (List.mem_of_mem_head? hp)
            exact absurd hc1 (hno c hc2)
        simp only [srtf_reap, hhd, hq, hh, if_neg hne, h4 fuel none (some h) hc hf, hpost]
        rfl

/-- C5 at the state `exDefunct`: pid 8 is not on the defunct chain `[1, 2]`. -/
theorem reap_unknown_pid_witness :
    ((∀ qd, defunctQ exDefunct = some qd → chain exDefunct.mem qd.head [1, 2]) ∧
      ∀ a ∈ [1, 2], (exDefunct.mem a).pid ≠ 8) ∧
    srtf_reap 3 exDefunct 8 = some (FAILURE, exDefunct) :=
  have h1 : ∀ qd, defunctQ exDefunct = some qd → chain exDefunct.mem qd.head [1, 2] := by
    intro qd hq
    have e : qd = { head := some 1, count := 2 } := by
      have : some ({ head := some 1, count := 2 } : queue_t) = some qd := hq
      exact (Option.some.inj this).symm
    subst e
    decide
  ⟨⟨h1, by decide⟩, reap_unknown_pid 3 exDefunct 8 [1, 2] h1 (by decide) (by decide)⟩

/-- C6: on a well-formed state, `srtf_add` of a process in state created with
`time_remaining ≥ 0` that lies on none of the three chains returns success; the state
field of the process becomes ready, the process can be reached from the head of the ready
queue, whose count is one more, and the stopped and defunct queues keep their chains, which
do not contain the process, with every node as before.  When the ready queue was not empty
or the chain pointer of the process was `NULL`, the ready queue holds its former chain
with the process inserted in pid order. -/
theorem add_created_goes_ready (fuel : Nat) (s : State) (qr qs qd : queue_t)
    (lr ls ld : List Nat) (p : Nat) (hwf : WellFormed s qr qs qd lr ls ld)
    (hp : p ∉ lr ∧ p ∉ ls ∧ p ∉ ld) (hst : stateOf (s.mem p).flags = STATE_CREATED)
    (htr : 0 ≤ (s.mem p).time_remaining) (hf : lr.length < fuel) :
    ∃ s' qr', srtf_add fuel s (some p) = some (SUCCESS, s') ∧
      stateOf (s'.mem p).flags = STATE_READY ∧
      s'.header = some { ready_queue := some qr', stopped_queue := some qs,
                         defunct_queue := some qd } ∧
      qr'.count = qr.count + 1 ∧ reachable s'.mem qr'.head p ∧
      chain s'.mem qs.head ls ∧ chain s'.mem qd.head ld ∧ p ∉ ls ∧ p ∉ ld ∧
      (∀ a ∈ ls, s'.mem a = s.mem a) ∧ (∀ a ∈ ld, s'.mem a = s.mem a) ∧
      (lr ≠ [] ∨ (s.mem p).next = none →
        WellFormed s' qr' qs qd (insertByPid s.mem (s.mem p).pid p lr) ls ld) := by
  obtain ⟨hh, hr, hs, hd, d1, d2, d3⟩ := hwf
  obtain ⟨hpr, hps, hpd⟩ := hp
  obtain ⟨mem2, q2, e1, e2, e3, f1, f2, g1, g2, e5, e6⟩ :=
    srtf_enqueue_frame fuel
      (setFlags s.mem p (Int.xor (s.mem p).flags (STATE_CREATED + STATE_READY))) qr p
      lr ls ld qs.head qd.head (lseg_setFlags _ _ _ _ _ _ hr) (lseg_setFlags _ _ _ _ _ _ hs)
      (lseg_setFlags _ _ _ _ _ _ hd) (fun a ha hm => d1 a hm ha) (fun a ha hm => d2 a hm ha)
      hpr hps hpd hf
  have hins : insertByPid
      (setFlags s.mem p (Int.xor (s.mem p).flags (STATE_CREATED + STATE_READY)))
      (setFlags s.mem p (Int.xor (s.mem p).flags (STATE_CREATED + STATE_READY)) p).pid p lr =
      insertByPid s.mem (s.mem p).pid p lr := by
    rw [setFlags_pid]
    exact insertByPid_congr _ _ _ _ _ (fun a => setFlags_pid _ _ _ _)
  refine ⟨{ mem := mem2, header := some { ready_queue := some q2, stopped_queue := some qs,
                                          defunct_queue := some qd } }, q2,
    ?_, ?_, rfl, e2, e3, f1, f2, hps, hpd, ?_, ?_, ?_⟩
  · rw [srtf_add_unfold fuel s qr qs qd p hh, if_neg (not_lt.2 htr), if_pos hst, e1]
  · show stateOf (mem2 p).flags = STATE_READY
    rw [(e5 p).2.2.1, setFlags_flags_self]
    exact stateOf_created_to_ready _ hst
  · intro a ha
    show mem2 a = s.mem a
    have hne : a ≠ p := fun e => hps (by rw [← e]; exact ha)
    rw [g1 a ha, setFlags_other _ _ _ _ hne]
  · intro a ha
    show mem2 a = s.mem a
    have hne : a ≠ p := fun e => hpd (by rw [← e]; exact ha)
    rw [g2 a ha, setFlags_other _ _ _ _ hne]
  · intro hcond
    rw [setFlags_next, hins] at e6
    obtain ⟨c1, c2, c3⟩ := e6 hcond
    exact ⟨rfl, c1, f1, f2, fun a ha hm => c2 a hm ha, fun a ha hm => c3 a hm ha, d3⟩

/-- C6 at the state `exAdd`: the created process at address 5 (pid 7, privilege bit set)
is added. -/
theorem add_created_goes_ready_witness :
    (WellFormed exAdd { head := some 1, count := 1 } { head := none, count := 0 }
        { head := none, count := 0 } [1] [] [] ∧
      stateOf (exAdd.mem 5).flags = STATE_CREATED ∧ 0 ≤ (exAdd.mem 5).time_remaining) ∧
    ∃ s' qr', srtf_add 2 exAdd (some 5) = some (SUCCESS, s') ∧
      stateOf (s'.mem 5).flags = STATE_READY ∧
      s'.header = some { ready_queue := some qr',
                         stopped_queue := some { head := none, count := 0 },
                         defunct_queue := some { head := none, count := 0 } } ∧
      qr'.count = 1 + 1 ∧ reachable s'.mem qr'.head 5 ∧
      chain s'.mem none [] ∧ chain s'.mem none [] ∧ 5 ∉ ([] : List Nat) ∧
      5 ∉ ([] : List Nat) ∧
      (∀ a ∈ ([] : List Nat), s'.mem a = exAdd.mem a) ∧
      (∀ a ∈ ([] : List Nat), s'.mem a = exAdd.mem a) ∧
      (([1] : List Nat) ≠ [] ∨ (exAdd.mem 5).next = none →
        WellFormed s' qr' { head := none, count := 0 } { head := none, count := 0 }
          (insertByPid exAdd.mem (exAdd.mem 5).pid 5 [1]) [] []) :=
  ⟨by decide,
    add_created_goes_ready 2 exAdd { head := some 1, count := 1 } { head := none, count := 0 }
      { head := none, count := 0 } [1] [] [] 5 (by decide) (by decide) (by decide)
      (by decide) (by decide)⟩

/-- C7: on a well-formed state, `srtf_add` of a detached process (on none of the chains,
chain pointer `NULL`) in state ready.  With `time_remaining = 0` it succeeds, the state
field becomes defunct, the defunct queue holds its chain with the process inserted in pid
order (count one more), and the ready and stopped queues are as before.  With
`time_remaining > 0` it succeeds, the flags are as before, the ready queue holds its chain
with the process inserted in pid order (count one more), and the stopped and defunct
queues are as before. -/
theorem add_ready_routes (fuel : Nat) (s : State) (qr qs qd : queue_t)
    (lr ls ld : List Nat) (p : Nat) (hwf : WellFormed s qr qs qd lr ls ld)
    (hp : p ∉ lr ∧ p ∉ ls ∧ p ∉ ld) (hdet : (s.mem p).next = none)
    (hst : stateOf (s.mem p).flags = STATE_READY)
    (hf1 : lr.length < fuel) (hf2 : ld.length < fuel) :
    ((s.mem p).time_remaining = 0 →
      ∃ s' qd', srtf_add fuel s (some p) = some (SUCCESS, s') ∧
        stateOf (s'.mem p).flags = STATE_DEFUNCT ∧ qd'.count = qd.count + 1 ∧
        WellFormed s' qr qs qd' lr ls (insertByPid s.mem (s.mem p).pid p ld) ∧
        (∀ a ∈ lr, s'.mem a = s.mem a) ∧ (∀ a ∈ ls, s'.mem a = s.mem a)) ∧
    ((s.mem p).time_remaining > 0 →
      ∃ s' qr', srtf_add fuel s (some p) = some (SUCCESS, s') ∧
        (s'.mem p).flags = (s.mem p).flags ∧ qr'.count = qr.count + 1 ∧
        WellFormed s' qr' qs qd (insertByPid s.mem (s.mem p).pid p lr) ls ld ∧
        (∀ a ∈ ls, s'.mem a = s.mem a) ∧ (∀ a ∈ ld, s'.mem a = s.mem a)) := by
  obtain ⟨hh, hr, hs, hd, d1, d2, d3⟩ := hwf
  obtain ⟨hpr, hps, hpd⟩ := hp
  have hnc : ¬ stateOf (s.mem p).flags = STATE_CREATED := by rw [hst]; decide
  constructor
  · intro htr
    obtain ⟨mem2, q2, e1, e2, -, f1, f2, g1, g2, e5, e6⟩ :=
      srtf_enqueue_frame fuel
        (setFlags s.mem p (Int.xor (s.mem p).flags (STATE_READY + STATE_DEFUNCT))) qd p
        ld lr ls qr.head qs.head (lseg_setFlags _ _ _ _ _ _ hd)
        (lseg_setFlags _ _ _ _ _ _ hr) (lseg_setFlags _ _ _ _ _ _ hs) d2 d3
        hpd hpr hps hf2
    have hins : insertByPid
        (setFlags s.mem p (Int.xor (s.mem p).flags (STATE_READY + STATE_DEFUNCT)))
        (setFlags s.mem p (Int.xor (s.mem p).flags (STATE_READY + STATE_DEFUNCT)) p).pid
        p ld = insertByPid s.mem (s.mem p).pid p ld := by
      rw [setFlags_pid]
      exact insertByPid_congr _ _ _ _ _ (fun a => setFlags_pid _ _ _ _)
    rw [setFlags_next, hins] at e6
    obtain ⟨c1, c2, c3⟩ := e6 (Or.inr hdet)
    refine ⟨{ mem := mem2, header := some { ready_queue := some qr, stopped_queue := some qs,
                                            defunct_queue := some q2 } }, q2,
      ?_, ?_, e2, ⟨rfl, f1, f2, c1, d1, c2, c3⟩, ?_, ?_⟩
    · rw [srtf_add_unfold fuel s qr qs qd p hh, if_neg (by rw [htr]; decide), if_neg hnc,
        if_pos hst, if_neg (by rw [htr]; decide), e1]
    · show stateOf (mem2 p).flags = STATE_DEFUNCT
      rw [(e5 p).2.2.1, setFlags_flags_self]
      exact stateOf_ready_to_defunct _ hst
    · intro a ha
      have hne : a ≠ p := fun e => hpr (by rw [← e]; exact ha)
      show mem2 a = s.mem a
      rw [g1 a ha, setFlags_other _ _ _ _ hne]
    · intro a ha
      have hne : a ≠ p := fun e => hps (by rw [← e]; exact ha)
      show mem2 a = s.mem a
      rw [g2 a ha, setFlags_other _ _ _ _ hne]
  · intro htr
    obtain ⟨mem2, q2, e1, e2, -, f1, f2, g1, g2, e5, e6⟩ :=
      srtf_enqueue_frame fuel s.mem qr p lr ls ld qs.head qd.head hr hs hd
        (fun a ha hm => d1 a hm ha) (fun a ha hm => d2 a hm ha) hpr hps hpd hf1
    obtain ⟨c1, c2, c3⟩ := e6 (Or.inr hdet)
    refine ⟨{ mem := mem2, header := some { ready_queue := some q2, stopped_queue := some qs,
                                            defunct_queue := some qd } }, q2,
      ?_, (e5 p).2.2.1, e2,
      ⟨rfl, c1, f1, f2, fun a ha hm => c2 a hm ha, fun a ha hm => c3 a hm ha, d3⟩, g1, g2⟩
    rw [srtf_add_unfold fuel s qr qs qd p hh, if_neg (not_lt.2 (le_of_lt htr)), if_neg hnc,
      if_pos hst, if_pos htr, e1]

/-- C7 at the state `exAdd`: the ready process at address 6 has no time left and goes to
the defunct queue; the ready process at address 7 has 2 units left and goes back to the
ready queue, in front of pid 3. -/
theorem add_ready_routes_witness :
    (WellFormed exAdd { head := some 1, count := 1 } { head := none, count := 0 }
        { head := none, count := 0 } [1] [] [] ∧
      stateOf (exAdd.mem 6).flags = STATE_READY ∧ (exAdd.mem 6).time_remaining = 0 ∧
      stateOf (exAdd.mem 7).flags = STATE_READY ∧ (exAdd.mem 7).time_remaining > 0) ∧
    (∃ s' qd', srtf_add 2 exAdd (some 6) = some (SUCCESS, s') ∧
        stateOf (s'.mem 6).flags = STATE_DEFUNCT ∧ qd'.count = 0 + 1 ∧
        WellFormed s' { head := some 1, count := 1 } { head := none, count := 0 } qd'
          [1] [] (insertByPid exAdd.mem (exAdd.mem 6).pid 6 []) ∧
        (∀ a ∈ [1], s'.mem a = exAdd.mem a) ∧
        (∀ a ∈ ([] : List Nat), s'.mem a = exAdd.mem a)) ∧
    (∃ s' qr', srtf_add 2 exAdd (some 7) = some (SUCCESS, s') ∧
        (s'.mem 7).flags = (exAdd.mem 7).flags ∧ qr'.count = 1 + 1 ∧
        WellFormed s' qr' { head := none, count := 0 } { head := none, count := 0 }
          (insertByPid exAdd.mem (exAdd.mem 7).pid 7 [1]) [] [] ∧
        (∀ a ∈ ([] : List Nat), s'.mem a = exAdd.mem a) ∧
        (∀ a ∈ ([] : List Nat), s'.mem a = exAdd.mem a)) :=
  ⟨by decide,
    (add_ready_routes 2 exAdd { head := some 1, count := 1 } { head := none, count := 0 }
      { head := none, count := 0 } [1] [] [] 6 (by decide) (by decide) (by decide)
      (by decide) (by decide) (by decide)).1 (by decide),
    (add_ready_routes 2 exAdd { head := some 1, count := 1 } { head := none, count := 0 }
      { head := none, count := 0 } [1] [] [] 7 (by decide) (by decide) (by decide)
      (by decide) (by decide) (by decide)).2 (by decide)⟩

/-- C8: on a well-formed state `srtf_add` returns, and it returns failure exactly when
`time_remaining` is negative or the state field of the flags is none of created, ready and
defunct; the state after a failed call is the state before it. -/
theorem add_fails_iff (fuel : Nat) (s : State) (qr qs qd : queue_t) (lr ls ld : List Nat)
    (p : Nat) (hwf : WellFormed s qr qs qd lr ls ld)
    (hf1 : lr.length < fuel) (hf2 : ld.length < fuel) :
    ∃ r s', srtf_add fuel s (some p) = some (r, s') ∧
      (r = FAILURE ↔ ((s.mem p).time_remaining < 0 ∨
        (stateOf (s.mem p).flags ≠ STATE_CREATED ∧ stateOf (s.mem p).flags ≠ STATE_READY ∧
          stateOf (s.mem p).flags ≠ STATE_DEFUNCT))) ∧
      (r = FAILURE → s' = s) ∧ (r ≠ FAILURE → r = SUCCESS) := by
  obtain ⟨hh, hr, hs, hd, -⟩ := hwf
  have hSF : SUCCESS ≠ FAILURE := by decide
  rw [srtf_add_unfold fuel s qr qs qd p hh]
  by_cases h0 : (s.mem p).time_remaining < 0
  · rw [if_pos h0]
    exact ⟨FAILURE, s, rfl, by simp [h0], fun _ => rfl, fun h => absurd rfl h⟩
  rw [if_neg h0]
  by_cases h1 : stateOf (s.mem p).flags = STATE_CREATED
  · rw [if_pos h1]
    obtain ⟨⟨mem2, q2⟩, e⟩ := srtf_enqueue_some fuel
      (setFlags s.mem p (Int.xor (s.mem p).flags (STATE_CREATED + STATE_READY))) qr p lr
      (lseg_setFlags _ _ _ _ _ _ hr) hf1
    rw [e]
    exact ⟨SUCCESS, _, rfl, by simp [hSF, h0, h1], fun h => absurd h hSF, fun _ => rfl⟩
  rw [if_neg h1]
  by_cases h2 : stateOf (s.mem p).flags = STATE_READY
  · rw [if_pos h2]
    by_cases h3 : (s.mem p).time_remaining > 0
    · rw [if_pos h3]
      obtain ⟨⟨mem2, q2⟩, e⟩ := srtf_enqueue_some fuel s.mem qr p lr hr hf1
      rw [e]
      exact ⟨SUCCESS, _, rfl, by simp [hSF, h0, h2], fun h => absurd h hSF, fun _ => rfl⟩
    · rw [if_neg h3]
      obtain ⟨⟨mem2, q2⟩, e⟩ := srtf_enqueue_some fuel
        (setFlags s.mem p (Int.xor (s.mem p).flags (STATE_READY + STATE_DEFUNCT))) qd p ld
        (lseg_setFlags _ _ _ _ _ _ hd) hf2
      rw [e]
      exact ⟨SUCCESS, _, rfl, by simp [hSF, h0, h2], fun h => absurd h hSF, fun _ => rfl⟩
  rw [if_neg h2]
  by_cases h4 : stateOf (s.mem p).flags = STATE_DEFUNCT
  · rw [if_pos h4]
    obtain ⟨⟨mem2, q2⟩, e⟩ := srtf_enqueue_some fuel s.mem qd p ld hd hf2
    rw [e]
    exact ⟨SUCCESS, _, rfl, by simp [hSF, h0, h4], fun h => absurd h hSF, fun _ => rfl⟩
  rw [if_neg h4]
  exact ⟨FAILURE, s, rfl, by simp [h1, h2, h4], fun _ => rfl, fun h => absurd rfl h⟩

/-- C8 at the state `exAdd`: the process at address 8 is in state stopped, so the call
fails and changes nothing. -/
theorem add_fails_iff_witness :
    WellFormed exAdd { head := some 1, count := 1 } { head := none, count := 0 }
      { head := none, count := 0 } [1] [] [] ∧
    ∃ r s', srtf_add 2 exAdd (some 8) = some (r, s') ∧
      (r = FAILURE ↔ ((exAdd.mem 8).time_remaining < 0 ∨
        (stateOf (exAdd.mem 8).flags ≠ STATE_CREATED ∧
          stateOf (exAdd.mem 8).flags ≠ STATE_READY ∧
          stateOf (exAdd.mem 8).flags ≠ STATE_DEFUNCT))) ∧
      (r = FAILURE → s' = exAdd) ∧ (r ≠ FAILURE → r = SUCCESS) :=
  ⟨by decide,
    add_fails_iff 2 exAdd { head := some 1, count := 1 } { head := none, count := 0 }
      { head := none, count := 0 } [1] [] [] 8 (by decide) (by decide) (by decide)⟩

/-- C9 (failing input): in `exStop` both queues are sorted and pid 1 is ready.  After
`srtf_stop` and `srtf_continue` for pid 1 (both succeed) the ready queue is restored, but
the stopped queue, empty before with a `NULL` head, now has the ready node of pid 2 as its
head; in between, the stopped queue of count 1 reaches both nodes. -/
theorem stop_continue_leaves_stale_head :
    WellFormed exStop { head := some 1, count := 2 } { head := none, count := 0 }
      { head := none, count := 0 } [1, 2] [] [] ∧
    outcome (srtf_stop 3 exStop 1) =
      some (SUCCESS, some ({ head := some 2, count := 1 }, [2]),
        some ({ head := some 1, count := 1 }, [1, 2])) ∧
    outcome ((srtf_stop 3 exStop 1).bind fun x => srtf_continue 3 x.2 1) =
      some (SUCCESS, some ({ head := some 1, count := 2 }, [1, 2]),
        some ({ head := some 2, count := 0 }, [2])) := by
  refine ⟨by decide, by decide, by decide⟩

/-- C10 (failing input): in `exStop` the stopped queue is empty and pid 1 is ready.
`srtf_stop` for pid 1 succeeds and gives the stopped queue the count 1, but the stopped
node keeps its chain pointer to the node of pid 2: the chain of the stopped queue is
`[1, 2]`, and node 2, still in state ready, is on the ready chain as well. -/
theorem stop_keeps_stale_next :
    (view exStop.mem 8 (readyQ exStop), view exStop.mem 8 (stoppedQ exStop)) =
      (some ({ head := some 1, count := 2 }, [1, 2]),
        some ({ head := none, count := 0 }, [])) ∧
    (srtf_stop 3 exStop 1).map (fun x => (x.1, readyQ x.2, stoppedQ x.2)) =
      some (SUCCESS, some { head := some 2, count := 1 },
        some { head := some 1, count := 1 }) ∧
    (srtf_stop 3 exStop 1).map (fun x => (x.2.mem 1).next) = some (some 2) ∧
    (srtf_stop 3 exStop 1).map (fun x => walk x.2.mem 8 (some 1)) = some [1, 2] ∧
    (srtf_stop 3 exStop 1).map (fun x => walk x.2.mem 8 (some 2)) = some [2] ∧
    (srtf_stop 3 exStop 1).map
        (fun x => (stateOf (x.2.mem 1).flags, stateOf (x.2.mem 2).flags)) =
      some (STATE_STOPPED, STATE_READY) := by
  refine ⟨by decide, by decide, by decide, by decide, by decide, by decide⟩

/-- C11 (failing input): after `srtf_init`, generating and adding pid 1 and pid 2, the three
counts equal the numbers of nodes reachable from the heads (2, 0, 0); after `srtf_stop` for
pid 1 the stopped queue has count 1 while two nodes are reachable from its head. -/
theorem count_differs_after_stop :
    (run 3 (boot fun _ => zeroed) (exCalls.take 4)).map (fun m =>
        (view m.state.mem 8 (readyQ m.state), view m.state.mem 8 (stoppedQ m.state),
          view m.state.mem 8 (defunctQ m.state))) =
      some (some ({ head := some 1, count := 2 }, [1, 2]),
        some ({ head := none, count := 0 }, []), some ({ head := none, count := 0 }, [])) ∧
    (run 3 (boot fun _ => zeroed) exCalls).map (fun m =>
        (srtf_count (stoppedQ m.state),
          ((view m.state.mem 8 (stoppedQ m.state)).map fun v => v.2.length))) =
      some (1, some 2) := by
  refine ⟨by decide, by decide⟩

/-- C12 (failing input): the calls `exReuse`.  After `srtf_stop` for pid 1 the stopped node
keeps its chain pointer to the node of pid 2 at address 2.  That node is then scheduled,
runs out of time, becomes defunct and is reaped, so that address 2 is free while the
stopped node still points to it.  When `calloc` returns address 2 for the new process of
pid 0, following the chain pointers from the head of the stopped queue meets the pids 1
and 0, in decreasing order. -/
theorem ordering_broken_by_reuse :
    (run 3 (boot fun _ => zeroed) (exReuse.take 9)).map (fun m =>
        (m.used, (stoppedQ m.state).map fun q => walk m.state.mem 8 q.head,
          (defunctQ m.state).map fun q => walk m.state.mem 8 q.head)) =
      some ([1], some [1, 2], some []) ∧
    (run 3 (boot fun _ => zeroed) exReuse).map (fun m =>
        ((stoppedQ m.state).map fun q =>
            (walk m.state.mem 8 q.head).map fun a => (m.state.mem a).pid,
          (readyQ m.state).map fun q =>
            (walk m.state.mem 8 q.head).map fun a => (m.state.mem a).pid)) =
      some (some [1, 0], some [0]) ∧
    (run 3 (boot fun _ => zeroed) exReuse).map (fun m =>
        (stoppedQ m.state).map fun q =>
          decide (sortedByPid m.state.mem (walk m.state.mem 8 q.head))) =
      some (some false) := by
  refine ⟨by decide, by decide, by decide⟩

/-- C13 (failing input): after `srtf_init`, generating and adding pid 1 and pid 2 and
`srtf_stop` for pid 1, the nodes reachable from the head of the stopped queue are nodes 1
and 2, and node 2 (pid 2) has the state field ready, not stopped. -/
theorem ready_process_on_stopped_chain :
    (run 3 (boot fun _ => zeroed) exCalls).map (fun m =>
        ((stoppedQ m.state).map fun q => walk m.state.mem 8 q.head,
          (readyQ m.state).map fun q => walk m.state.mem 8 q.head)) =
      some (some [1, 2], some [2]) ∧
    (run 3 (boot fun _ => zeroed) exCalls).map (fun m =>
        (stateOf (m.state.mem 1).flags, stateOf (m.state.mem 2).flags)) =
      some (STATE_STOPPED, STATE_READY) := by
  refine ⟨by decide, by decide⟩

/-- C14: when both allocations succeed (`calloc` returns the address `a`), `srtf_generate`
returns `NULL` exactly when the command is `NULL` or `time_remaining ≤ 0`; otherwise it
returns `a`, and the store holds at `a` a process with a copy of the command text, the
given pid and `time_remaining`, `time_last_run = now`, a `NULL` chain pointer and flags
`0x01`, or `0x21` when `is_sudo` is not 0; every other address is as before. -/
theorem generate_result (mem : Memory) (a : Nat) (now : Int) (command : Option String)
    (pid time_remaining is_sudo : Int) :
    ((srtf_generate mem (some a) true now command pid time_remaining is_sudo).1 = none ↔
      (command = none ∨ time_remaining ≤ 0)) ∧
    (∀ text, command = some text → 0 < time_remaining →
      srtf_generate mem (some a) true now command pid time_remaining is_sudo =
        (some a, fun b =>
          if b = a then
            { command := some text, pid := pid,
              flags := if is_sudo = 0 then 0x01 else 0x21,
              time_remaining := time_remaining, time_last_run := now, next := none }
          else mem b)) := by
  have e1 : Int.lor 0 STATE_CREATED = 0x01 := by decide
  have e2 : Int.lor (Int.lor 0 STATE_CREATED) PF_SUPERPRIV = 0x21 := by decide
  constructor
  · by_cases h : command = none ∨ time_remaining ≤ 0
    · simp [srtf_generate, h]
    · have hc : command ≠ none := fun e => h (Or.inl e)
      obtain ⟨text, rfl⟩ := Option.ne_none_iff_exists'.1 hc
      have h2 : ¬ time_remaining ≤ 0 := fun e => h (Or.inr e)
      simp [srtf_generate, srtf_strdup, h2]
  · intro text hc htr
    subst hc
    have h : ¬ (some text = none ∨ time_remaining ≤ 0) := by
      rintro (h | h)
      · cases h
      · exact absurd htr (not_lt.2 h)
    simp only [srtf_generate, srtf_strdup, if_neg h, if_true, e1, e2]
    congr 1
    funext b
    by_cases hb : b = a
    · have e3 : Int.lor 1 PF_SUPERPRIV = 0x21 := by decide
      by_cases hs : is_sudo = 0 <;> simp [hb, hs, e3]
    · simp [hb]

/-- C15: when the pids on the defunct chain are pairwise distinct and one node carries the
given pid, `srtf_reap` returns and leaves a defunct chain (the former one without that
node, count one less) on which no node carries the pid; a second `srtf_reap` for the same
pid returns -1 and the state it was given. -/
theorem reap_twice (fuel : Nat) (s : State) (pid : Int) (qd : queue_t) (ld : List Nat)
    (hq : defunctQ s = some qd) (hc : chain s.mem qd.head ld)
    (hdist : (ld.map fun a => (s.mem a).pid).Nodup)
    (hin : ∃ c ∈ ld, (s.mem c).pid = pid) (hf : ld.length < fuel) :
    ∃ r s' qd' pre c post, srtf_reap fuel s pid = some (r, s') ∧
      ld = pre ++ c :: post ∧ (s.mem c).pid = pid ∧
      defunctQ s' = some qd' ∧ qd'.count = qd.count - 1 ∧
      chain s'.mem qd'.head (pre ++ post) ∧
      (∀ a ∈ pre ++ post, (s'.mem a).pid ≠ pid) ∧
      srtf_reap fuel s' pid = some (FAILURE, s') := by
  have hnd := chain_nodup _ _ _ hc
  have hex : ∃ a ∈ ld, decide ((s.mem a).pid = pid) = true := by
    obtain ⟨c, hc1, hc2⟩ := hin
    exact ⟨c, hc1, by simpa using hc2⟩
  obtain ⟨pre, c, post, h1, h2, h3, h4⟩ :=
    scan_found s.mem (fun x => decide (x.pid = pid)) ld hex
  have hcpid : (s.mem c).pid = pid := by simpa using h3
  have hc_mem : c ∈ ld := by rw [h1]; simp
  have hothers : ∀ a ∈ pre ++ post, (s.mem a).pid ≠ pid := by
    intro a ha hpa
    have ha_mem : a ∈ ld := by
      rw [h1]
      rcases List.mem_append.1 ha with ha | ha
      · exact List.mem_append_left _ ha
      · exact List.mem_append_right _ (List.mem_cons_of_mem _ ha)
    have e : a = c :=
      List.inj_on_of_nodup_map hdist ha_mem hc_mem (hpa.trans hcpid.symm)
    rw [h1] at hnd
    have hc_pre : c ∉ pre := fun hm =>
      (List.nodup_append.1 hnd).2.2 hm (List.mem_cons_self _ _)
    have hc_post : c ∉ post := (List.nodup_cons.1 (List.nodup_append.1 hnd).2.1).1
    rw [e] at ha
    rcases List.mem_append.1 ha with ha | ha
    · exact hc_pre ha
    · exact hc_post ha
  have hf2 : (pre ++ post).length < fuel := by
    rw [h1] at hf
    simp at hf ⊢
    omega
  have hq0 := hq
  unfold defunctQ at hq
  cases hhd : s.header with
  | none => simp [hhd] at hq
  | some hdr =>
    have hq2 : hdr.defunct_queue = some qd := by simpa [hhd] using hq
    rw [h1] at hc
    rcases nil_or_snoc pre with e | ⟨pre0, b, e⟩
    · subst e
      have hh : qd.head = some c := hc.1
      have hchain : chain s.mem (s.mem c).next post := hc.2
      have hdq : defunctQ
          ({ mem := s.mem,
             header := some { ready_queue := hdr.ready_queue,
                              stopped_queue := hdr.stopped_queue,
                              defunct_queue := some { head := (s.mem c).next,
                                                      count := qd.count - 1 } } } : State) =
          some { head := (s.mem c).next, count := qd.count - 1 } := rfl
      refine ⟨0, _, _, [], c, post, ?_, h1, hcpid, hdq, rfl, hchain, hothers, ?_⟩
      · simp only [srtf_reap, hhd, hq2, hh, if_pos hcpid]
      · exact srtf_reap_absent fuel _ pid _ post hdq hchain hothers (by simpa using hf2)
    · subst e
      have hc2 : chain s.mem qd.head (pre0 ++ b :: c :: post) := by simpa using hc
      have hu := chain_unlink s.mem pre0 post b c qd.head hc2
      have hu2 : chain (setNext s.mem b (s.mem c).next) qd.head (pre0 ++ [b] ++ post) := by
        simpa using hu
      have hhead : qd.head = (pre0 ++ [b] ++ c :: post).head? := chain_head _ _ _ hc
      obtain ⟨h, hh⟩ : ∃ h, qd.head = some h ∧ h ∈ pre0 ++ [b] := by
        cases pre0 with
        | nil => exact ⟨b, by simpa using hhead, by simp⟩
        | cons a pre0 => exact ⟨a, by simpa using hhead, by simp⟩
      have hne : ¬ (s.mem h).pid = pid := by simpa using h2 h hh.2
      have hscan := h4 fuel none (some h) (by rw [← hh.1, h1]; exact hc) hf
      rw [lastOr_snoc] at hscan
      have hdq : defunctQ
          ({ mem := setNext s.mem b (s.mem c).next,
             header := some { ready_queue := hdr.ready_queue,
                              stopped_queue := hdr.stopped_queue,
                              defunct_queue := some { head := qd.head,
                                                      count := qd.count - 1 } } } : State) =
          some { head := qd.head, count := qd.count - 1 } := rfl
      have hothers2 : ∀ a ∈ pre0 ++ [b] ++ post,
          (setNext s.mem b (s.mem c).next a).pid ≠ pid := by
        intro a ha
        rw [(setNext_sameData s.mem b a _).2.1]
        exact hothers a ha
      refine ⟨(s.mem c).flags >>> STATE_COUNT, _, _, pre0 ++ [b], c, post, ?_, h1, hcpid,
        hdq, rfl, hu2, hothers2, ?_⟩
      · simp only [srtf_reap, hhd, hq2, hh.1, if_neg hne, hscan]
      · exact srtf_reap_absent fuel _ pid _ _ hdq hu2 hothers2 hf2

/-- C15 at the state `exDefunct` and pid 9, the second node of the defunct chain. -/
theorem reap_twice_witness :
    (chain exDefunct.mem (some 1) [1, 2] ∧
      ([1, 2].map fun a => (exDefunct.mem a).pid).Nodup ∧ (exDefunct.mem 2).pid = 9) ∧
    ∃ r s' qd' pre c post, srtf_reap 3 exDefunct 9 = some (r, s') ∧
      [1, 2] = pre ++ c :: post ∧ (exDefunct.mem c).pid = 9 ∧
      defunctQ s' = some qd' ∧ qd'.count = 2 - 1 ∧
      chain s'.mem qd'.head (pre ++ post) ∧
      (∀ a ∈ pre ++ post, (s'.mem a).pid ≠ 9) ∧
      srtf_reap 3 s' 9 = some (FAILURE, s') :=
  ⟨by decide,
    reap_twice 3 exDefunct 9 { head := some 1, count := 2 } [1, 2] rfl (by decide)
      (by decide) ⟨2, by decide, by decide⟩ (by decide)⟩

/-- C16: `srtf_schedule` returns, and it returns `NULL` exactly when the header is `NULL`,
the ready queue is `NULL` or the head of the ready queue is `NULL`; then the state is the
one it started from.  A process that is returned is a node of the ready chain. -/
theorem schedule_null_iff (fuel : Nat) (now : Int) (s : State) (lr : List Nat)
    (hr : ∀ q, readyQ s = some q → chain s.mem q.head lr) (hf : lr.length < fuel) :
    ∃ r s', srtf_schedule fuel now s = some (r, s') ∧
      (r = none ↔ (s.header = none ∨ readyQ s = none ∨
        ∃ q, readyQ s = some q ∧ q.head = none)) ∧
      (r = none → s' = s) ∧ (∀ p, r = some p → p ∈ lr) := by
  cases hhd : s.header with
  | none =>
    exact ⟨none, s, by simp [srtf_schedule, hhd], by simp, fun _ => rfl,
      fun p hp => by cases hp⟩
  | some hdr =>
    cases hq : hdr.ready_queue with
    | none =>
      have hrq : readyQ s = none := by simp [readyQ, hhd, hq]
      exact ⟨none, s, by simp [srtf_schedule, hhd, hq], by simp [hrq], fun _ => rfl,
        fun p hp => by cases hp⟩
    | some q =>
      have hrq : readyQ s = some q := by simp [readyQ, hhd, hq]
      have hc := hr q hrq
      cases lr with
      | nil =>
        have hh : q.head = none := hc
        exact ⟨none, s, by simp [srtf_schedule, hhd, hq, hh], by simp [hrq, hh],
          fun _ => rfl, fun p hp => by cases hp⟩
      | cons h t =>
        have hh : q.head = some h := hc.1
        obtain ⟨s', hs'⟩ := srtf_schedule_returns fuel now s q h t hrq hc hf
        obtain ⟨pre, post, hsplit, -⟩ := selection_predOf s.mem now h t
        refine ⟨_, s', hs', ?_, (fun e => by cases e), ?_⟩
        · simp [hrq, hh]
        · intro p hp
          have e : (selection s.mem now h t).2 = p := Option.some.inj hp
          rw [← e, hsplit]
          simp

/-- C16 at the state `exReady3` and clock value 12. -/
theorem schedule_null_iff_witness :
    (∀ q, readyQ exReady3 = some q → chain exReady3.mem q.head [1, 2, 3]) ∧
    ∃ r s', srtf_schedule 4 12 exReady3 = some (r, s') ∧
      (r = none ↔ (exReady3.header = none ∨ readyQ exReady3 = none ∨
        ∃ q, readyQ exReady3 = some q ∧ q.head = none)) ∧
      (r = none → s' = exReady3) ∧ (∀ p, r = some p → p ∈ [1, 2, 3]) :=
  have h1 : ∀ q, readyQ exReady3 = some q → chain exReady3.mem q.head [1, 2, 3] := by
    intro q hq
    have e : q = { head := some 1, count := 3 } := by
      have : some ({ head := some 1, count := 3 } : queue_t) = some q := hq
      exact (Option.some.inj this).symm
    subst e
    decide
  ⟨h1, schedule_null_iff 4 12 exReady3 [1, 2, 3] h1 (by decide)⟩

/-- C17: when some process of the ready chain is starved at clock value `now`,
`srtf_schedule` returns the first starved process in chain order, whatever the
`time_remaining` values are; in particular the returned process is starved. -/
theorem schedule_first_starved (fuel : Nat) (now : Int) (s : State) (qr : queue_t)
    (lr : List Nat) (hq : readyQ s = some qr) (hr : chain s.mem qr.head lr)
    (hex : ∃ a ∈ lr, starved s.mem now a) (hf : lr.length < fuel) :
    ∃ p s', srtf_schedule fuel now s = some (some p, s') ∧ firstStarved s.mem now lr p ∧
      starved s.mem now p := by
  cases lr with
  | nil =>
    obtain ⟨a, ha, -⟩ := hex
    simp at ha
  | cons h t =>
    obtain ⟨s', hs'⟩ := srtf_schedule_returns fuel now s qr h t hq hr hf
    have key : firstStarved s.mem now (h :: t) (selection s.mem now h t).2 := by
      unfold selection
      by_cases hh : starved s.mem now h
      · have hh2 : ¬ now - (s.mem h).time_last_run < TIME_STARVATION := not_lt.2 hh
        rw [if_neg hh2]
        exact ⟨[], t, rfl, hh, by simp⟩
      · have hh2 : now - (s.mem h).time_last_run < TIME_STARVATION := not_le.1 hh
        rw [if_pos hh2]
        have hex2 : ∃ a ∈ t, starved s.mem now a := by
          obtain ⟨a, ha, hs⟩ := hex
          rcases List.mem_cons.1 ha with e | ha
          · subst e; exact absurd hs hh
          · exact ⟨a, ha, hs⟩
        obtain ⟨pre, post, h1, h2, h3⟩ := pick_firstStarved s.mem now t h none h hex2
        refine ⟨h :: pre, post, congrArg (List.cons h) h1, h2, ?_⟩
        intro a ha
        rcases List.mem_cons.1 ha with e | ha
        · subst e; exact hh
        · exact h3 a ha
    obtain ⟨pre, post, k1, k2, k3⟩ := key
    exact ⟨_, s', hs', ⟨pre, post, k1, k2, k3⟩, k2⟩

/-- C17 at the state `exStarved3` and clock value 10: the head (pid 1) is not starved,
pid 2 and pid 3 are, and pid 3 has the least remaining time. -/
theorem schedule_first_starved_witness :
    (chain exStarved3.mem (some 1) [1, 2, 3] ∧ ¬ starved exStarved3.mem 10 1 ∧
      starved exStarved3.mem 10 2 ∧ starved exStarved3.mem 10 3) ∧
    ∃ p s', srtf_schedule 4 10 exStarved3 = some (some p, s') ∧
      firstStarved exStarved3.mem 10 [1, 2, 3] p ∧ starved exStarved3.mem 10 p :=
  ⟨by decide,
    schedule_first_starved 4 10 exStarved3 { head := some 1, count := 3 } [1, 2, 3] rfl
      (by decide) ⟨2, by decide, by decide⟩ (by decide)⟩

/-- C18: `srtf_enqueue` of a detached process `x` (not on the chain `l` of the queue, chain
pointer `NULL`) splits `l` into `pre ++ post`, where every node of `pre` has a smaller pid
and the first node of `post`, if any, has a pid that is not smaller, and leaves the queue
with the chain `pre ++ x :: post`; the count is one more, the head is `x` when `pre` is
empty and is unchanged otherwise, no node changes in anything but its chain pointer, and a
chain sorted by pid stays sorted. -/
theorem enqueue_inserts_in_order (fuel : Nat) (mem : Memory) (q : queue_t) (x : Nat)
    (l : List Nat) (hc : chain mem q.head l) (hx : x ∉ l) (hdet : (mem x).next = none)
    (hf : l.length < fuel) :
    ∃ mem2 q2 pre post, srtf_enqueue fuel mem q x = some (mem2, q2) ∧
      l = pre ++ post ∧ chain mem2 q2.head (pre ++ x :: post) ∧
      (∀ a ∈ pre, (mem a).pid < (mem x).pid) ∧
      (∀ c, post.head? = some c → (mem c).pid ≥ (mem x).pid) ∧
      q2.count = q.count + 1 ∧
      (pre = [] → q2.head = some x) ∧ (pre ≠ [] → q2.head = q.head) ∧
      (∀ a, sameData (mem2 a) (mem a)) ∧
      (sortedByPid mem l → sortedByPid mem2 (pre ++ x :: post)) := by
  obtain ⟨mem2, q2, e1, e2, e3, -, e5⟩ :=
    srtf_enqueue_spec fuel mem q x l hc hx (fun _ => hdet) hf
  obtain ⟨pre, post, h1, h2, h3, h4⟩ := insertByPid_eq mem (mem x).pid x l
  rw [h2] at e3
  have hhead := chain_head _ _ _ e3
  refine ⟨mem2, q2, pre, post, e1, h1, e3, h3, h4, e2, ?_, ?_, e5, ?_⟩
  · intro hp
    rw [hhead, hp]
    rfl
  · intro hp
    rw [h1] at hc
    have hhead0 := chain_head _ _ _ hc
    rw [hhead, hhead0]
    cases pre with
    | nil => exact absurd rfl hp
    | cons a pre => rfl
  · intro hs
    rw [h1] at hs
    exact sortedByPid_congr mem mem2 _ (fun a => (e5 a).2.1)
      (sortedByPid_insert mem x pre post hs h3 h4)

/-- C18 at the state `exAdd`: the detached process at address 7 (pid 2) is put in front of
the ready node 1 (pid 3). -/
theorem enqueue_inserts_in_order_witness :
    (chain exAdd.mem (some 1) [1] ∧ 7 ∉ [1] ∧ (exAdd.mem 7).next = none) ∧
    ∃ mem2 q2 pre post,
      srtf_enqueue 2 exAdd.mem { head := some 1, count := 1 } 7 = some (mem2, q2) ∧
      [1] = pre ++ post ∧ chain mem2 q2.head (pre ++ 7 :: post) ∧
      (∀ a ∈ pre, (exAdd.mem a).pid < (exAdd.mem 7).pid) ∧
      (∀ c, post.head? = some c → (exAdd.mem c).pid ≥ (exAdd.mem 7).pid) ∧
      q2.count = 1 + 1 ∧
      (pre = [] → q2.head = some 7) ∧ (pre ≠ [] → q2.head = some 1) ∧
      (∀ a, sameData (mem2 a) (exAdd.mem a)) ∧
      (sortedByPid exAdd.mem [1] → sortedByPid mem2 (pre ++ 7 :: post)) :=
  ⟨by decide,
    enqueue_inserts_in_order 2 exAdd.mem { head := some 1, count := 1 } 7 [1]
      (by decide) (by decide) (by decide) (by decide)⟩

/-- C20: whatever the state, a call of `srtf_add`, `srtf_schedule`, `srtf_stop` or
`srtf_continue` that returns leaves at every address the command, the pid,
`time_remaining`, `time_last_run` and the flag bits from position 5 upward as they
were. -/
theorem relocation_keeps_data (fuel : Nat) (now : Int) (s s' : State) :
    (∀ process r, srtf_add fuel s process = some (r, s') → keeps s.mem s'.mem) ∧
    (∀ r, srtf_schedule fuel now s = some (r, s') → keeps s.mem s'.mem) ∧
    (∀ pid r, srtf_stop fuel s pid = some (r, s') → keeps s.mem s'.mem) ∧
    (∀ pid r, srtf_continue fuel s pid = some (r, s') → keeps s.mem s'.mem) := by
  refine ⟨?_, ?_, ?_, ?_⟩
  · intro process r h
    rcases srtf_add_effect fuel s process r s' h with ⟨-, e⟩ |
      ⟨qr, qs, qd, p, mem1, mem2, q, -, -, -, hm1, he⟩
    · rw [e]; exact keeps_refl _
    · have k1 : keeps s.mem mem1 := by
        rcases hm1 with e | ⟨m, hm, e⟩
        · rw [e]; exact keeps_refl _
        · rw [e]; exact keeps_setFlags_xor _ _ _ hm
      rcases he with ⟨he, e⟩ | ⟨he, e⟩
      · rw [e]
        exact keeps_trans _ _ _ k1
          (keeps_of_sameData _ _ (srtf_enqueue_sameData _ _ _ _ _ _ he))
      · rw [e]
        exact keeps_trans _ _ _ k1
          (keeps_of_sameData _ _ (srtf_enqueue_sameData _ _ _ _ _ _ he))
  · intro r h
    rcases srtf_schedule_effect fuel now s r s' h with ⟨-, e⟩ |
      ⟨hdr, ready, hd, previous, process, -, -, -, -, -, e⟩
    · rw [e]; exact keeps_refl _
    · rw [e]
      exact keeps_trans _ _ _ (keeps_unlinkMem _ _ _) (keeps_setNext _ _ _)
  · intro pid r h
    rcases srtf_stop_effect fuel s pid r s' h with ⟨-, e⟩ |
      ⟨hdr, ready, stopped, hd, previous, c, mem3, q, -, -, -, -, -, he, -, e⟩
    · rw [e]; exact keeps_refl _
    · rw [e]
      exact keeps_trans _ _ _ (keeps_unlinkMem s.mem previous c)
        (keeps_trans _ _ _ (keeps_setFlags_xor _ c 6 (by norm_num))
          (keeps_of_sameData _ _ (srtf_enqueue_sameData _ _ _ _ _ _ he)))
  · intro pid r h
    rcases srtf_continue_effect fuel s pid r s' h with ⟨-, e⟩ |
      ⟨hdr, ready, stopped, hd, previous, c, mem3, q, -, -, -, -, -, he, -, e⟩
    · rw [e]; exact keeps_refl _
    · rw [e]
      exact keeps_trans _ _ _ (keeps_unlinkMem s.mem previous c)
        (keeps_trans _ _ _ (keeps_setFlags_xor _ c 6 (by norm_num))
          (keeps_of_sameData _ _ (srtf_enqueue_sameData _ _ _ _ _ _ he)))

/-- C20 at concrete calls: adding the created process at address 5 of `exAdd`, scheduling
in `exReady3` at clock value 12 (pid 2 is returned), stopping pid 1 in `exStop`, and a
failing `srtf_continue` in `exStop`. -/
theorem relocation_keeps_data_witness :
    (∃ s', srtf_add 2 exAdd (some 5) = some (SUCCESS, s') ∧ keeps exAdd.mem s'.mem) ∧
    (∃ s', srtf_schedule 4 12 exReady3 = some (some 2, s') ∧ keeps exReady3.mem s'.mem) ∧
    (∃ s', srtf_stop 3 exStop 1 = some (SUCCESS, s') ∧ keeps exStop.mem s'.mem) ∧
    (∃ s', srtf_continue 3 exStop 1 = some (FAILURE, s') ∧ keeps exStop.mem s'.mem) :=
  ⟨⟨_, rfl, (relocation_keeps_data 2 0 exAdd _).1 (some 5) SUCCESS rfl⟩,
    ⟨_, rfl, (relocation_keeps_data 4 12 exReady3 _).2.1 (some 2) rfl⟩,
    ⟨_, rfl, (relocation_keeps_data 3 0 exStop _).2.2.1 1 SUCCESS rfl⟩,
    ⟨_, rfl, (relocation_keeps_data 3 0 exStop _).2.2.2 1 FAILURE rfl⟩⟩

end SRTF
